import Mathlib

/-!
Verification of the music-tools audio core against its TypeScript source:
the drum-loop lookahead scheduler (src/hooks/use-drum-engine.ts), the
metronome pulse engine and tap-tempo estimator (src/hooks/use-tap-tempo.ts),
the autocorrelation pitch detector (the tuner hook), the note math
(src/lib/tuner-utils.ts), pattern normalization (the drum-looper route) and
the project URL-state codec (drum-looper-url-state / drum-looper-types).

Modelling conventions: audio-clock times, volumes and other JS numbers are
exact rationals; JS integer-valued numbers are `Int`; the transcendental
note math uses `Real.logb`. JS `%` is truncated remainder (`Int.tmod`),
JS array indexing is partial (`Option`), and JS code that can dereference
`undefined` is embedded as an `Option`-returning function.
-/

namespace MusicTools

/-- JS array indexing `xs[i]`: defined only for integer `0 ≤ i < xs.length`. -/
def jsIndex {α : Type} (xs : List α) (i : ℤ) : Option α :=
  if 0 ≤ i then xs[i.toNat]? else none

/-- JS remainder operator `a % b`: truncated toward zero. -/
def jsRem (a b : ℤ) : ℤ :=
  Int.tmod a b

/-- DrumTrack from drum-looper-types.ts (id, samplePath, volume, pan,
nudgeMs, mute, solo, name). -/
structure DrumTrack where
  id : String
  name : String
  samplePath : String
  volume : ℚ
  pan : ℚ
  nudgeMs : ℚ
  mute : Bool
  solo : Bool
deriving DecidableEq

/-- DrumSection from drum-looper-types.ts; `pattern` maps track ids to step
index lists (a JS object embedded as an association list). -/
structure DrumSection where
  id : String
  name : String
  bars : ℤ
  beatsPerBar : ℤ
  stepsPerBeat : ℤ
  repeats : ℤ
  swing : ℚ
  pattern : List (String × List ℤ)
deriving DecidableEq

/-- DrumProject from drum-looper-types.ts. -/
structure DrumProject where
  bpm : ℤ
  masterVolume : ℚ
  version : ℤ
  tracks : List DrumTrack
  sections : List DrumSection
deriving DecidableEq

/-- Constant LOOKAHEAD_SECONDS = 0.12 from use-drum-engine.ts. -/
def LOOKAHEAD_SECONDS : ℚ := 12 / 100

/-- Constant MIN_NOTE_AHEAD_SECONDS = 0.04 from use-drum-engine.ts. -/
def MIN_NOTE_AHEAD_SECONDS : ℚ := 4 / 100

/-- Constant SCHEDULER_INTERVAL_MS = 25 from use-drum-engine.ts. -/
def SCHEDULER_INTERVAL_MS : ℚ := 25

/-- getStepCount from use-drum-engine.ts:
`section.beatsPerBar * section.bars * section.stepsPerBeat`. -/
def getStepCount (sec : DrumSection) : ℤ :=
  sec.beatsPerBar * sec.bars * sec.stepsPerBeat

/-- isStepActive from use-drum-engine.ts:
`section.pattern[track.id]?.includes(stepIndex) ?? false`. -/
def isStepActive (track : DrumTrack) (sec : DrumSection) (stepIndex : ℤ) : Bool :=
  match sec.pattern.lookup track.id with
  | some steps => steps.contains stepIndex
  | none => false

/-- shouldPlayTrack from use-drum-engine.ts. -/
def shouldPlayTrack (track : DrumTrack) (hasSolo : Bool) : Bool :=
  if hasSolo then track.solo && !track.mute else !track.mute

/-- getSwingOffsetSeconds from use-drum-engine.ts. -/
def getSwingOffsetSeconds (sec : DrumSection) (stepIndex : ℤ)
    (stepDurationSeconds : ℚ) : ℚ :=
  if sec.swing ≤ 0 then 0
  else if jsRem stepIndex 2 = 1 then stepDurationSeconds * sec.swing * (1 / 2)
  else 0

/-- PlaybackState from use-drum-engine.ts (the scheduler's mutable cursor). -/
structure PlaybackState where
  loop : ℤ
  nextNoteTime : ℚ
  repeatIndex : ℤ
  sectionIndex : ℤ
  stepIndex : ℤ
deriving DecidableEq

/-- PlaybackCursor snapshot published by scheduleStep via setCursor. -/
structure PlaybackCursor where
  loop : ℤ
  sectionIndex : ℤ
  stepIndex : ℤ
  totalSteps : ℤ
deriving DecidableEq

/-- One audio event handed to the backend: `source.start(adjustedTime)` for a
given track. -/
structure ScheduledEvent where
  trackId : String
  time : ℚ
deriving DecidableEq

/-- scheduleStep from use-drum-engine.ts. `bufferLoaded` abstracts the sample
buffer cache (`sampleBufferCacheRef`); a track without a buffer is skipped.
Returns the events started on the audio backend and the published cursor, or
`none` when `sections[state.sectionIndex]` is undefined. -/
def scheduleStep (project : DrumProject) (bufferLoaded : String → Bool)
    (now : ℚ) (st : PlaybackState) :
    Option (List ScheduledEvent × PlaybackCursor) :=
  match jsIndex project.sections st.sectionIndex with
  | none => none
  | some sec =>
    let hasSolo := project.tracks.any (fun t => t.solo)
    let stepDurationSeconds := 60 / (project.bpm : ℚ) / (sec.stepsPerBeat : ℚ)
    let swingOffsetSeconds := getSwingOffsetSeconds sec st.stepIndex stepDurationSeconds
    let rawTime := st.nextNoteTime + swingOffsetSeconds
    let events := project.tracks.filterMap fun t =>
      if shouldPlayTrack t hasSolo && isStepActive t sec st.stepIndex
          && bufferLoaded t.samplePath then
        some (ScheduledEvent.mk t.id (max (now + 1 / 1000) (rawTime + t.nudgeMs / 1000)))
      else none
    some (events,
      { loop := st.loop
        sectionIndex := st.sectionIndex
        stepIndex := st.stepIndex
        totalSteps := getStepCount sec })

/-- advancePlaybackState from use-drum-engine.ts, mirroring the mutation
order of the source. -/
def advancePlaybackState (project : DrumProject) (st : PlaybackState) :
    Option PlaybackState :=
  match jsIndex project.sections st.sectionIndex with
  | none => none
  | some sec =>
    let stepCount := getStepCount sec
    let st1 := { st with stepIndex := st.stepIndex + 1 }
    let st2 :=
      if stepCount ≤ st1.stepIndex then
        let st1a := { st1 with stepIndex := 0, repeatIndex := st1.repeatIndex + 1 }
        if sec.repeats ≤ st1a.repeatIndex then
          { st1a with
            repeatIndex := 0
            sectionIndex := jsRem (st1a.sectionIndex + 1) (project.sections.length : ℤ)
            loop := st1a.loop + 1 }
        else st1a
      else st1
    some { st2 with
      nextNoteTime := st2.nextNoteTime + 60 / (project.bpm : ℚ) / (sec.stepsPerBeat : ℚ) }

/-- schedulerTick from use-drum-engine.ts: the lookahead while-loop
`while (nextNoteTime < currentTime + LOOKAHEAD_SECONDS)` scheduling one step
and advancing per iteration. The loop is embedded with explicit fuel; with
fuel at least the number of remaining iterations the result is exact (fuel
exhaustion stops early, which the sufficiency theorems rule out). `now` is
`audioContext.currentTime`, held fixed for the duration of one tick. -/
def schedulerTickFuel (project : DrumProject) (bufferLoaded : String → Bool)
    (now : ℚ) : ℕ → PlaybackState → Option (PlaybackState × List ScheduledEvent)
  | 0, st => some (st, [])
  | fuel + 1, st =>
    if st.nextNoteTime < now + LOOKAHEAD_SECONDS then
      match scheduleStep project bufferLoaded now st,
          advancePlaybackState project st with
      | some (events, _), some st2 =>
        match schedulerTickFuel project bufferLoaded now fuel st2 with
        | some (stFin, rest) => some (stFin, events ++ rest)
        | none => none
      | _, _ => none
    else some (st, [])

/-- Engine state visible around `play()`/`stop()`: the React state plus the
refs that `play` touches. -/
structure EngineState where
  isPlaying : Bool
  error : Option String
  playbackState : Option PlaybackState
  schedulerTimerActive : Bool
  audioContextActive : Bool
deriving DecidableEq

/-- The play function from use-drum-engine.ts. The awaited external steps of
the success path (AudioContext creation/resume, sample preloading, the first
scheduler tick) are summarised by the flags and refs they set; the
empty-tracks guard returns before any of them runs, which is all claim C7
needs. `now` is `audioContext.currentTime` when the playback state is
created. -/
def play (project : DrumProject) (now : ℚ) (es : EngineState) : EngineState :=
  if es.isPlaying then es
  else if project.tracks.length = 0 then
    { es with error := some "Add at least one sample track before pressing play." }
  else
    { es with
      error := none
      audioContextActive := true
      playbackState := some
        { loop := 1
          nextNoteTime := now + MIN_NOTE_AHEAD_SECONDS
          repeatIndex := 0
          sectionIndex := 0
          stepIndex := 0 }
      schedulerTimerActive := true
      isPlaying := true }

theorem jsRem_eq_self_of_lt {a b : ℤ} (h0 : 0 ≤ a) (h1 : a < b) : jsRem a b = a :=
  Int.tmod_eq_of_lt h0 h1

theorem jsRem_self {b : ℤ} : jsRem b b = 0 :=
  Int.tmod_self

/-- C2: one cursor advance increments stepIndex mod the section's step count;
on wraparound to 0 the repeatIndex increments; when repeatIndex reaches
`section.repeats` it resets to 0, the sectionIndex advances wrapping modulo
the number of sections, and the loop counter increments. -/
theorem claim_C2_cursor_advance (project : DrumProject) (st : PlaybackState)
    (sec : DrumSection)
    (hsec : jsIndex project.sections st.sectionIndex = some sec)
    (hstep0 : 0 ≤ st.stepIndex) (hstep1 : st.stepIndex < getStepCount sec)
    (hrep0 : 0 ≤ st.repeatIndex) (hrep1 : st.repeatIndex < sec.repeats) :
    ∃ st2, advancePlaybackState project st = some st2 ∧
      st2.stepIndex = jsRem (st.stepIndex + 1) (getStepCount sec) ∧
      (st.stepIndex + 1 < getStepCount sec →
        st2.stepIndex = st.stepIndex + 1 ∧ st2.repeatIndex = st.repeatIndex ∧
        st2.sectionIndex = st.sectionIndex ∧ st2.loop = st.loop) ∧
      (st.stepIndex + 1 = getStepCount sec →
        st2.stepIndex = 0 ∧
        (st.repeatIndex + 1 < sec.repeats →
          st2.repeatIndex = st.repeatIndex + 1 ∧
          st2.sectionIndex = st.sectionIndex ∧ st2.loop = st.loop) ∧
        (st.repeatIndex + 1 = sec.repeats →
          st2.repeatIndex = 0 ∧
          st2.sectionIndex = jsRem (st.sectionIndex + 1) (project.sections.length : ℤ) ∧
          st2.loop = st.loop + 1)) := by
  by_cases hwrap : getStepCount sec ≤ st.stepIndex + 1
  · have heq : st.stepIndex + 1 = getStepCount sec := le_antisymm (by omega) hwrap
    by_cases hrep : sec.repeats ≤ st.repeatIndex + 1
    · have heqr : st.repeatIndex + 1 = sec.repeats := le_antisymm (by omega) hrep
      refine ⟨⟨st.loop + 1,
          st.nextNoteTime + 60 / (project.bpm : ℚ) / (sec.stepsPerBeat : ℚ), 0,
          jsRem (st.sectionIndex + 1) (project.sections.length : ℤ), 0⟩, ?_, ?_, ?_, ?_⟩
      · simp [advancePlaybackState, hsec, hwrap, hrep]
      · simp only [heq, jsRem_self]
      · intro h; omega
      · intro _
        refine ⟨rfl, ?_, ?_⟩
        · intro h; omega
        · intro _; exact ⟨rfl, rfl, rfl⟩
    · refine ⟨⟨st.loop,
          st.nextNoteTime + 60 / (project.bpm : ℚ) / (sec.stepsPerBeat : ℚ),
          st.repeatIndex + 1, st.sectionIndex, 0⟩, ?_, ?_, ?_, ?_⟩
      · simp [advancePlaybackState, hsec, hwrap, hrep]
      · simp only [heq, jsRem_self]
      · intro h; omega
      · intro _
        refine ⟨rfl, ?_, ?_⟩
        · intro _; exact ⟨rfl, rfl, rfl⟩
        · intro h; omega
  · refine ⟨⟨st.loop,
        st.nextNoteTime + 60 / (project.bpm : ℚ) / (sec.stepsPerBeat : ℚ),
        st.repeatIndex, st.sectionIndex, st.stepIndex + 1⟩, ?_, ?_, ?_, ?_⟩
    · simp [advancePlaybackState, hsec, hwrap]
    · show st.stepIndex + 1 = jsRem (st.stepIndex + 1) (getStepCount sec)
      exact (jsRem_eq_self_of_lt (by omega) (by omega)).symm
    · intro _; exact ⟨rfl, rfl, rfl, rfl⟩
    · intro h; omega

/-- C7: with an empty track list, `play()` sets the guidance error string and
returns without touching the audio context, creating a playback state,
starting the scheduler timer, or changing isPlaying. -/
theorem claim_C7_play_empty_tracks (project : DrumProject) (now : ℚ)
    (es : EngineState) (hnp : es.isPlaying = false)
    (htracks : project.tracks = []) :
    play project now es =
      { es with error := some "Add at least one sample track before pressing play." } ∧
    (play project now es).isPlaying = false ∧
    (play project now es).playbackState = es.playbackState ∧
    (play project now es).schedulerTimerActive = es.schedulerTimerActive ∧
    (play project now es).audioContextActive = es.audioContextActive := by
  have h : play project now es =
      { es with error := some "Add at least one sample track before pressing play." } := by
    unfold play
    rw [hnp, htracks]
    simp
  exact ⟨h, by rw [h]; exact hnp, by rw [h], by rw [h], by rw [h]⟩

/-- Sample section used by concrete witnesses (stepCount = 2·1·2 = 4). -/
def wSection : DrumSection :=
  ⟨"s1", "Verse", 1, 2, 2, 2, 0, [("t1", [0, 2])]⟩

/-- Sample track used by concrete witnesses. -/
def wTrack : DrumTrack :=
  ⟨"t1", "Kick", "/kick.wav", 8 / 10, 0, 0, false, false⟩

/-- Sample project used by concrete witnesses. -/
def wProject : DrumProject :=
  ⟨120, 8 / 10, 1, [wTrack], [wSection]⟩

/-- Sample project with no tracks, for the play() guard witness. -/
def wEmptyProject : DrumProject :=
  ⟨120, 8 / 10, 1, [], [wSection]⟩

theorem claim_C2_cursor_advance_witness :
    jsIndex wProject.sections (0 : ℤ) = some wSection ∧ (0 : ℤ) ≤ 1 ∧
    (1 : ℤ) < getStepCount wSection ∧ (0 : ℤ) < wSection.repeats ∧
    ∃ st2, advancePlaybackState wProject ⟨1, 0, 0, 0, 1⟩ = some st2 ∧
      st2.stepIndex = jsRem (1 + 1) (getStepCount wSection) := by
  refine ⟨by decide, by decide, by decide, by decide, ?_⟩
  obtain ⟨st2, h1, h2, -⟩ :=
    claim_C2_cursor_advance wProject ⟨1, 0, 0, 0, 1⟩ wSection
      (by decide) (by decide) (by decide) (by decide) (by decide)
  exact ⟨st2, h1, h2⟩

theorem claim_C7_play_empty_tracks_witness :
    wEmptyProject.tracks = [] ∧
    play wEmptyProject 0 ⟨false, none, none, false, false⟩ =
      { EngineState.mk false none none false false with
        error := some "Add at least one sample track before pressing play." } :=
  ⟨rfl, (claim_C7_play_empty_tracks wEmptyProject 0 ⟨false, none, none, false, false⟩
    rfl rfl).1⟩

/-! Pattern normalization from the drum-looper route (part_005):
`normalizeStepIndexes` filters out-of-range steps, dedupes with a JS `Set`
(first occurrence kept) and sorts numerically ascending. -/

/-- Helper for `jsSetDedup`: `seen` is the set of elements already kept. -/
def jsSetDedupAux (seen : List ℤ) : List ℤ → List ℤ
  | [] => []
  | a :: l =>
    if seen.contains a then jsSetDedupAux seen l
    else a :: jsSetDedupAux (a :: seen) l

/-- Deduplication by `new Set(...)`: keeps the first occurrence of each
element, preserving encounter order. -/
def jsSetDedup (l : List ℤ) : List ℤ :=
  jsSetDedupAux [] l

/-- normalizeStepIndexes from the drum-looper route:
`[...new Set(stepIndexes.filter(step => step >= 0 && step < maxSteps))]`
sorted with the numeric comparator `(a, b) => a - b`. A JS `Array.sort` with
a consistent numeric comparator returns the unique weakly-ascending
permutation of its input, embedded here as an insertion sort. -/
def normalizeStepIndexes (stepIndexes : List ℤ) (maxSteps : ℤ) : List ℤ :=
  (jsSetDedup (stepIndexes.filter fun step =>
    decide (0 ≤ step) && decide (step < maxSteps))).insertionSort (· ≤ ·)

/-- normalizeSection from the drum-looper route: re-normalizes every pattern
entry against the section's step count, leaving all other fields alone. -/
def normalizeSection (sec : DrumSection) : DrumSection :=
  { sec with pattern := sec.pattern.map fun entry =>
      (entry.1, normalizeStepIndexes entry.2 (getStepCount sec)) }

theorem jsSetDedupAux_mem : ∀ (l : List ℤ) (seen : List ℤ) (x : ℤ),
    x ∈ jsSetDedupAux seen l ↔ x ∈ l ∧ x ∉ seen
  | [], seen, x => by simp [jsSetDedupAux]
  | a :: l, seen, x => by
    rw [jsSetDedupAux]
    by_cases hc : seen.contains a
    · rw [if_pos hc]
      rw [jsSetDedupAux_mem l seen x]
      have ha : a ∈ seen := by simpa using hc
      constructor
      · rintro ⟨hx, hns⟩
        exact ⟨List.mem_cons_of_mem _ hx, hns⟩
      · rintro ⟨hx, hns⟩
        rcases List.mem_cons.mp hx with hxa | hxl
        · exact absurd (hxa ▸ ha) hns
        · exact ⟨hxl, hns⟩
    · rw [if_neg hc]
      have ha : a ∉ seen := by simpa using hc
      by_cases hx : x = a
      · subst hx
        simp [ha]
      · simp only [List.mem_cons, hx, false_or]
        rw [jsSetDedupAux_mem l (a :: seen) x]
        simp [List.mem_cons, hx]

theorem jsSetDedupAux_nodup : ∀ (l : List ℤ) (seen : List ℤ),
    (jsSetDedupAux seen l).Nodup
  | [], seen => by simp [jsSetDedupAux]
  | a :: l, seen => by
    rw [jsSetDedupAux]
    by_cases hc : seen.contains a
    · rw [if_pos hc]
      exact jsSetDedupAux_nodup l seen
    · rw [if_neg hc]
      refine List.nodup_cons.mpr ⟨?_, jsSetDedupAux_nodup l (a :: seen)⟩
      intro hmem
      have := (jsSetDedupAux_mem l (a :: seen) a).mp hmem
      simp at this

theorem jsSetDedup_mem (l : List ℤ) (x : ℤ) : x ∈ jsSetDedup l ↔ x ∈ l := by
  unfold jsSetDedup
  rw [jsSetDedupAux_mem]
  simp

theorem jsSetDedup_nodup (l : List ℤ) : (jsSetDedup l).Nodup :=
  jsSetDedupAux_nodup l []

/-- C8: normalizing a section yields, for every pattern entry, a step list
that is duplicate-free, strictly sorted ascending and contained in
[0, stepCount) with stepCount = beatsPerBar × bars × stepsPerBeat; all other
section fields (and the set of pattern keys) are unchanged. -/
theorem claim_C8_normalize_section (sec : DrumSection)
    (entry : String × List ℤ)
    (hmem : entry ∈ (normalizeSection sec).pattern) :
    entry.2.Nodup ∧ List.Sorted (· < ·) entry.2 ∧
    (∀ x ∈ entry.2, 0 ≤ x ∧ x < getStepCount sec) ∧
    getStepCount sec = sec.beatsPerBar * sec.bars * sec.stepsPerBeat ∧
    (normalizeSection sec).id = sec.id ∧
    (normalizeSection sec).name = sec.name ∧
    (normalizeSection sec).bars = sec.bars ∧
    (normalizeSection sec).beatsPerBar = sec.beatsPerBar ∧
    (normalizeSection sec).stepsPerBeat = sec.stepsPerBeat ∧
    (normalizeSection sec).repeats = sec.repeats ∧
    (normalizeSection sec).swing = sec.swing ∧
    (normalizeSection sec).pattern.map Prod.fst = sec.pattern.map Prod.fst := by
  simp only [normalizeSection, List.mem_map] at hmem
  obtain ⟨src, hsrc, hentry⟩ := hmem
  have hval : entry.2 = normalizeStepIndexes src.2 (getStepCount sec) := by
    rw [← hentry]
  have hnodup : entry.2.Nodup := by
    rw [hval]
    unfold normalizeStepIndexes
    exact ((List.perm_insertionSort _ _).nodup_iff).mpr (jsSetDedup_nodup _)
  have hsortedLe : List.Sorted (· ≤ ·) entry.2 := by
    rw [hval]
    unfold normalizeStepIndexes
    exact List.sorted_insertionSort _ _
  refine ⟨hnodup, ?_, ?_, rfl, rfl, rfl, rfl, rfl, rfl, rfl, rfl, ?_⟩
  · exact hsortedLe.imp₂ (fun a b hle hne => lt_of_le_of_ne hle hne) hnodup
  · intro x hx
    rw [hval] at hx
    unfold normalizeStepIndexes at hx
    rw [List.mem_insertionSort, jsSetDedup_mem, List.mem_filter] at hx
    simpa using hx.2
  · simp [normalizeSection]

theorem claim_C8_normalize_section_witness :
    (("t1", [0, 2]) : String × List ℤ) ∈ (normalizeSection wSection).pattern ∧
    ([0, 2] : List ℤ).Nodup ∧ List.Sorted (· < ·) ([0, 2] : List ℤ) ∧
    (∀ x ∈ ([0, 2] : List ℤ), 0 ≤ x ∧ x < getStepCount wSection) := by
  have h := claim_C8_normalize_section wSection ("t1", [0, 2]) (by decide)
  exact ⟨by decide, h.1, h.2.1, h.2.2.1⟩

/-! Tap-tempo estimator from use-tap-tempo.ts (`useTapTempo`): a bounded
window of tap timestamps; each `tap()` pushes `performance.now()`, drops the
oldest entry beyond `maxTaps` and, once two taps exist, emits the rounded,
clamped BPM of the mean inter-tap interval. -/

/-- Constant DEFAULT_MAX_TAPS = 8. -/
def DEFAULT_MAX_TAPS : ℕ := 8

/-- Constant DEFAULT_RESET_AFTER_MS = 2000. -/
def DEFAULT_RESET_AFTER_MS : ℚ := 2000

/-- Math.round: round half toward positive infinity. -/
def jsRound (x : ℚ) : ℤ := ⌊x + 1 / 2⌋

/-- The clamp `Math.max(20, Math.min(300, calculatedBpm))` from `tap()`. -/
def clampTapBpm (n : ℤ) : ℤ := max 20 (min 300 n)

/-- Window update in `tap()`: `taps.push(now)` followed by one `shift()` when
the length exceeds `maxTaps`. -/
def tapWindow (taps : List ℚ) (t : ℚ) (maxTaps : ℕ) : List ℚ :=
  if maxTaps < (taps ++ [t]).length then (taps ++ [t]).tail else taps ++ [t]

/-- The consecutive inter-tap intervals `taps[i] - taps[i-1]` computed by the
for-loop in `tap()`. -/
def consecIntervals : List ℚ → List ℚ
  | a :: b :: rest => (b - a) :: consecIntervals (b :: rest)
  | _ => []

/-- BPM computation in `tap()`: once at least two taps exist,
`round(60000 / mean(intervals))` clamped to [20, 300]; otherwise nothing is
emitted (the published bpm stays null from its initial state). -/
def computeBpm (taps : List ℚ) : Option ℤ :=
  if 2 ≤ taps.length then
    some (clampTapBpm (jsRound (60000 /
      ((consecIntervals taps).sum / ((consecIntervals taps).length : ℚ)))))
  else none

/-- One `tap()` call at timestamp `t`: the updated window and the emitted
BPM, if any. -/
def tap (taps : List ℚ) (t : ℚ) (maxTaps : ℕ) : List ℚ × Option ℤ :=
  let w := tapWindow taps t maxTaps
  (w, computeBpm w)

theorem consecIntervals_length :
    ∀ l : List ℚ, (consecIntervals l).length = l.length - 1
  | [] => rfl
  | [_] => rfl
  | a :: b :: rest => by
    rw [consecIntervals]
    simp only [List.length_cons]
    rw [consecIntervals_length (b :: rest)]
    simp

theorem consecIntervals_sum :
    ∀ (a : ℚ) (l : List ℚ), (consecIntervals (a :: l)).sum = l.getLastD a - a
  | _, [] => by simp [consecIntervals]
  | a, b :: rest => by
    rw [consecIntervals, List.sum_cons, consecIntervals_sum b rest,
      List.getLastD_cons]
    ring

theorem chain_lt_head_lt_getLastD {a : ℚ} {l : List ℚ}
    (hchain : List.Chain (· < ·) a l) (hne : l ≠ []) : a < l.getLastD a := by
  induction l generalizing a with
  | nil => exact absurd rfl hne
  | cons b rest ih =>
    rcases List.chain_cons.mp hchain with ⟨hab, hrest⟩
    rw [List.getLastD_cons]
    rcases eq_or_ne rest [] with hr | hr
    · subst hr
      simpa using hab
    · exact lt_trans hab (ih hrest hr)

/-- C4: each tap appends its timestamp to the capacity-8 window, dropping the
oldest entry when the capacity is exceeded; once at least two taps exist the
emitted bpm is round(60000 / mean(consecutive intervals)) — equivalently,
since consecutive intervals telescope, round(60000·(n−1)/(last−first)) —
clamped to [20, 300]; with fewer than two taps nothing is emitted. Strictly
increasing timestamps keep the mean interval positive. -/
theorem claim_C4_tap_tempo (taps : List ℚ) (t : ℚ)
    (hlen : taps.length ≤ DEFAULT_MAX_TAPS)
    (hchain : List.Chain' (· < ·) (taps ++ [t])) :
    (taps.length < 8 → (tap taps t DEFAULT_MAX_TAPS).1 = taps ++ [t]) ∧
    (taps.length = 8 → (tap taps t DEFAULT_MAX_TAPS).1 = taps.tail ++ [t]) ∧
    (tap taps t DEFAULT_MAX_TAPS).1.length ≤ 8 ∧
    ((tap taps t DEFAULT_MAX_TAPS).1.length ≤ 1 →
      (tap taps t DEFAULT_MAX_TAPS).2 = none) ∧
    (∀ w, w = (tap taps t DEFAULT_MAX_TAPS).1 → 2 ≤ w.length →
      (tap taps t DEFAULT_MAX_TAPS).2 =
        some (clampTapBpm (jsRound (60000 * ((w.length : ℚ) - 1) /
          (w.getLastD 0 - w.headI))))) := by
  have hwin : (tap taps t DEFAULT_MAX_TAPS).1 = tapWindow taps t DEFAULT_MAX_TAPS := rfl
  have h8 : taps.length ≤ 8 := hlen
  refine ⟨?_, ?_, ?_, ?_, ?_⟩
  · intro h
    rw [hwin]
    unfold tapWindow
    rw [if_neg (show ¬(DEFAULT_MAX_TAPS < (taps ++ [t]).length) by
      simp only [List.length_append, List.length_singleton]
      show ¬(8 < taps.length + 1)
      omega)]
  · intro h
    rw [hwin]
    unfold tapWindow
    rw [if_pos (show DEFAULT_MAX_TAPS < (taps ++ [t]).length by
      simp only [List.length_append, List.length_singleton]
      show 8 < taps.length + 1
      omega)]
    exact List.tail_append_of_ne_nil (by
      intro hnil
      rw [hnil] at h
      simp at h)
  · rw [hwin]
    unfold tapWindow
    split
    · simp only [List.length_tail, List.length_append, List.length_singleton]
      omega
    · rename_i hsplit
      rw [not_lt] at hsplit
      exact hsplit
  · intro h
    rw [hwin] at h
    show computeBpm (tapWindow taps t DEFAULT_MAX_TAPS) = none
    unfold computeBpm
    rw [if_neg (by omega)]
  · intro w hw hwlen
    rw [hwin] at hw
    subst hw
    show computeBpm (tapWindow taps t DEFAULT_MAX_TAPS) = _
    rcases hwexists : tapWindow taps t DEFAULT_MAX_TAPS with - | ⟨a, rest⟩
    · rw [hwexists] at hwlen
      simp at hwlen
    · have hwlen2 : 2 ≤ (a :: rest).length := hwexists ▸ hwlen
      have hrne : rest ≠ [] := by
        intro hnil
        rw [hnil] at hwlen2
        simp at hwlen2
      unfold computeBpm
      rw [if_pos hwlen2]
      have hq : (60000 : ℚ) /
          ((consecIntervals (a :: rest)).sum /
            ((consecIntervals (a :: rest)).length : ℚ)) =
          60000 * (((a :: rest).length : ℚ) - 1) /
            ((a :: rest).getLastD 0 - (a :: rest).headI) := by
        rw [consecIntervals_sum a rest, consecIntervals_length (a :: rest),
          List.getLastD_cons]
        have hhead : (a :: rest).headI = a := rfl
        rw [hhead, div_div_eq_mul_div]
        have hcast : (((a :: rest).length - 1 : ℕ) : ℚ) =
            ((a :: rest).length : ℚ) - 1 := by
          simp only [List.length_cons, Nat.add_sub_cancel]
          push_cast
          ring
        rw [hcast]
      rw [hq]

theorem claim_C4_tap_tempo_witness :
    ([0, 500] : List ℚ).length ≤ DEFAULT_MAX_TAPS ∧
    List.Chain' (· < ·) (([0, 500] : List ℚ) ++ [1000]) ∧
    (tap [0, 500] 1000 DEFAULT_MAX_TAPS).2 = some 120 ∧
    computeBpm [0] = none := by
  have h := claim_C4_tap_tempo [0, 500] 1000 (by decide)
    (by norm_num [List.chain'_cons, List.chain'_singleton])
  refine ⟨by decide, by norm_num [List.chain'_cons, List.chain'_singleton], ?_, by decide⟩
  have h5 := h.2.2.2.2 (tap [0, 500] 1000 DEFAULT_MAX_TAPS).1 rfl (by decide)
  rw [h5]
  have hw : (tap [0, 500] 1000 DEFAULT_MAX_TAPS).1 = [0, 500, 1000] := rfl
  rw [hw]
  norm_num [clampTapBpm, jsRound]

/-! Metronome pulse engine from use-tap-tempo.ts (`useMetronome`). The
interval-driven state machine: `startInterval` installs a `setInterval` at
`60000 / bpm` ms and runs the first tick immediately; each tick plays a
click, publishes the beat, advances the beat ref modulo `beatsPerMeasure`,
and — when the speed trainer is enabled and a measure just completed —
advances the trainer, either completing (stop + onComplete) or bumping the
tempo and recursively restarting the interval. The recursion through
`startInterval` is embedded with explicit fuel; every scenario proved below
uses enough fuel that the zero-fuel fallback is never reached. -/

/-- SpeedTrainerConfig from use-tap-tempo.ts. -/
structure SpeedTrainerConfig where
  bpmIncrement : ℚ
  enabled : Bool
  loops : ℤ
  repeatsPerLoop : ℤ
deriving DecidableEq

/-- SpeedTrainerState from use-tap-tempo.ts (`speedTrainerRef`). -/
structure SpeedTrainerState where
  currentBpm : ℚ
  currentLoop : ℤ
  currentRepeat : ℤ
deriving DecidableEq

/-- TimerConfig from use-tap-tempo.ts. -/
structure TimerConfig where
  durationSeconds : ℤ
  enabled : Bool
deriving DecidableEq

/-- Metronome options captured by the hook closure. -/
structure MetronomeConfig where
  beatsPerMeasure : ℤ
  speedTrainer : Option SpeedTrainerConfig
  timer : Option TimerConfig
deriving DecidableEq

/-- The `speedTrainer?.enabled` test. -/
def trainerEnabled (cfg : MetronomeConfig) : Bool :=
  match cfg.speedTrainer with
  | some tr => tr.enabled
  | none => false

/-- JS Math.min on two numbers. -/
def jsMinQ (a b : ℚ) : ℚ := if a ≤ b then a else b

/-- JS Math.max on two numbers. -/
def jsMaxQ (a b : ℚ) : ℚ := if a ≤ b then b else a

/-- MIN_BPM/MAX_BPM clamp (clampBpm from use-tap-tempo.ts):
`Math.max(MIN_BPM, Math.min(MAX_BPM, value))`. -/
def clampBpm (value : ℚ) : ℚ := jsMaxQ 20 (jsMinQ 300 value)

/-- Metronome state: the React state plus the refs, the interval slots and an
event counter for `onComplete`. `intervalBpm = some b` models an installed
beat interval at rate `60000 / b` ms; `none` models a cleared interval. -/
structure MetronomeState where
  bpm : ℚ
  currentBeat : ℤ
  currentBeatRef : ℤ
  isPlaying : Bool
  isCountingIn : Bool
  countInRemaining : ℤ
  elapsedSeconds : ℤ
  trainer : SpeedTrainerState
  trainerState : Option SpeedTrainerState
  intervalBpm : Option ℚ
  timerActive : Bool
  completeCount : ℕ
  audioCtx : Bool
deriving DecidableEq

/-- One `tick` of `startInterval` (use-tap-tempo.ts lines 306-352), with the
recursive `startInterval(st.currentBpm, audioContext)` call of the speed
trainer modelled by installing the new interval and running its immediate
first tick on decremented fuel. -/
def metTick (cfg : MetronomeConfig) : ℕ → MetronomeState → MetronomeState
  | 0, st => st
  | fuel + 1, st =>
    let beat := st.currentBeatRef
    let st1 := { st with currentBeat := beat }
    let ref2 := jsRem (beat + 1) cfg.beatsPerMeasure
    let st2 := { st1 with currentBeatRef := ref2 }
    match cfg.speedTrainer with
    | none => st2
    | some tr =>
      if tr.enabled ∧ ref2 = 0 then
        let r := st2.trainer.currentRepeat + 1
        if tr.repeatsPerLoop < r then
          let lp := st2.trainer.currentLoop + 1
          if 0 < tr.loops ∧ tr.loops < lp then
            { st2 with
              trainer := ⟨st2.trainer.currentBpm, lp, 1⟩
              intervalBpm := none
              timerActive := false
              isPlaying := false
              currentBeat := -1
              currentBeatRef := 0
              elapsedSeconds := 0
              trainerState := none
              completeCount := st2.completeCount + 1 }
          else
            let newBpm := clampBpm (st2.trainer.currentBpm + tr.bpmIncrement)
            let st3 := { st2 with trainer := ⟨newBpm, lp, 1⟩ }
            let st4 := metTick cfg fuel { st3 with intervalBpm := some newBpm }
            { st4 with trainerState := some st4.trainer }
        else
          let st3 := { st2 with trainer :=
            ⟨st2.trainer.currentBpm, st2.trainer.currentLoop, r⟩ }
          { st3 with trainerState := some st3.trainer }
      else st2

/-- startInterval from use-tap-tempo.ts: clears any pending interval,
installs a new one at the given tempo and executes the first tick
immediately. -/
def startInterval (cfg : MetronomeConfig) (fuel : ℕ) (intervalBpm : ℚ)
    (st : MetronomeState) : MetronomeState :=
  metTick cfg fuel { st with intervalBpm := some intervalBpm }

/-- One firing of the installed beat interval: the tick runs only while an
interval is installed. -/
def metCallback (cfg : MetronomeConfig) (fuel : ℕ) (st : MetronomeState) :
    MetronomeState :=
  if st.intervalBpm.isSome then metTick cfg fuel st else st

/-- startMetronome from use-tap-tempo.ts: resets the beat ref, seeds the
speed trainer from the current bpm, starts the beat interval (immediate
first tick) and, when configured, the 1 Hz timer. -/
def startMetronome (cfg : MetronomeConfig) (fuel : ℕ) (st : MetronomeState) :
    MetronomeState :=
  let st1 := { st with currentBeatRef := 0 }
  let startBpm := st1.bpm
  let st2 :=
    if trainerEnabled cfg then
      { st1 with
        trainer := ⟨startBpm, 1, 1⟩
        trainerState := some ⟨startBpm, 1, 1⟩ }
    else st1
  let st3 := { st2 with isCountingIn := false, countInRemaining := 0 }
  let st4 := startInterval cfg fuel startBpm st3
  match cfg.timer with
  | some tm => if tm.enabled ∧ 0 < tm.durationSeconds then
      { st4 with timerActive := true } else st4
  | none => st4

/-- setBpm from use-tap-tempo.ts: clamps, updates the bpm state/ref, and —
while playing, not counting in, speed trainer not enabled, with an audio
context present — restarts the beat interval at the new rate. -/
def setMetBpm (cfg : MetronomeConfig) (fuel : ℕ) (newBpm : ℚ)
    (st : MetronomeState) : MetronomeState :=
  let clamped := clampBpm newBpm
  let st1 := { st with bpm := clamped }
  if st1.isPlaying ∧ ¬st1.isCountingIn ∧ ¬(trainerEnabled cfg) ∧ st1.audioCtx then
    startInterval cfg fuel clamped st1
  else st1

/-- Speed-trainer scenario config of claim C3: loops = 2, repeatsPerLoop = 1,
bpmIncrement = 10, default 4 beats per measure, no timer, no count-in. -/
def c3Config : MetronomeConfig :=
  ⟨4, some ⟨10, true, 2, 1⟩, none⟩

/-- Scenario start state: bpm 100, play() pressed (isPlaying set), before
startMetronome runs. -/
def c3Start : MetronomeState :=
  { bpm := 100
    currentBeat := -1
    currentBeatRef := 0
    isPlaying := true
    isCountingIn := false
    countInRemaining := 0
    elapsedSeconds := 0
    trainer := ⟨100, 1, 1⟩
    trainerState := none
    intervalBpm := none
    timerActive := false
    completeCount := 0
    audioCtx := true }

/-- State of the C3 scenario after `startMetronome` and `n` firings of the
beat interval. -/
def c3Run : ℕ → MetronomeState
  | 0 => startMetronome c3Config 4 c3Start
  | n + 1 => metCallback c3Config 4 (c3Run n)

theorem jsRem_nonneg_eq {a b : ℤ} (ha : 0 ≤ a) (hb : 0 ≤ b) :
    jsRem a b = a % b :=
  Int.tmod_eq_emod ha hb

/-- C3: with the speed trainer at loops = 2, repeatsPerLoop = 1,
bpmIncrement = 10 and start bpm 100: after the first loop's measure completes
(the 3rd interval firing plays beat 3 and rolls the measure over), the
trainer bpm is 110, the interval is reinstalled at 110 and the immediate
first tick of the restart plays beat 0; after the second loop completes the
engine stops — isPlaying false, beat reset to −1, interval cleared — and
onComplete has fired exactly once, with further interval callbacks changing
nothing. -/
theorem claim_C3_speed_trainer :
    (c3Run 3).trainer.currentBpm = 110 ∧
    (c3Run 3).intervalBpm = some 110 ∧
    (c3Run 3).currentBeat = 0 ∧
    (c3Run 3).isPlaying = true ∧
    (c3Run 3).completeCount = 0 ∧
    (c3Run 6).isPlaying = false ∧
    (c3Run 6).currentBeat = -1 ∧
    (c3Run 6).intervalBpm = none ∧
    (c3Run 6).completeCount = 1 ∧
    metCallback c3Config 4 (c3Run 6) = c3Run 6 := by
  have h0 : c3Run 0 =
      ⟨100, 0, 1, true, false, 0, 0, ⟨100, 1, 1⟩, some ⟨100, 1, 1⟩,
        some 100, false, 0, true⟩ := by
    norm_num [c3Run, startMetronome, startInterval, metTick, trainerEnabled,
      c3Config, c3Start, jsRem_nonneg_eq]
  have h1 : c3Run 1 =
      ⟨100, 1, 2, true, false, 0, 0, ⟨100, 1, 1⟩, some ⟨100, 1, 1⟩,
        some 100, false, 0, true⟩ := by
    have hs : c3Run 1 = metCallback c3Config 4 (c3Run 0) := rfl
    rw [hs, h0]
    norm_num [metCallback, metTick, c3Config, jsRem_nonneg_eq]
  have h2 : c3Run 2 =
      ⟨100, 2, 3, true, false, 0, 0, ⟨100, 1, 1⟩, some ⟨100, 1, 1⟩,
        some 100, false, 0, true⟩ := by
    have hs : c3Run 2 = metCallback c3Config 4 (c3Run 1) := rfl
    rw [hs, h1]
    norm_num [metCallback, metTick, c3Config, jsRem_nonneg_eq]
  have h3 : c3Run 3 =
      ⟨100, 0, 1, true, false, 0, 0, ⟨110, 2, 1⟩, some ⟨110, 2, 1⟩,
        some 110, false, 0, true⟩ := by
    have hs : c3Run 3 = metCallback c3Config 4 (c3Run 2) := rfl
    rw [hs, h2]
    norm_num [metCallback, metTick, c3Config, jsRem_nonneg_eq, clampBpm,
      jsMaxQ, jsMinQ]
  have h4 : c3Run 4 =
      ⟨100, 1, 2, true, false, 0, 0, ⟨110, 2, 1⟩, some ⟨110, 2, 1⟩,
        some 110, false, 0, true⟩ := by
    have hs : c3Run 4 = metCallback c3Config 4 (c3Run 3) := rfl
    rw [hs, h3]
    norm_num [metCallback, metTick, c3Config, jsRem_nonneg_eq]
  have h5 : c3Run 5 =
      ⟨100, 2, 3, true, false, 0, 0, ⟨110, 2, 1⟩, some ⟨110, 2, 1⟩,
        some 110, false, 0, true⟩ := by
    have hs : c3Run 5 = metCallback c3Config 4 (c3Run 4) := rfl
    rw [hs, h4]
    norm_num [metCallback, metTick, c3Config, jsRem_nonneg_eq]
  have h6 : c3Run 6 =
      ⟨100, -1, 0, false, false, 0, 0, ⟨110, 3, 1⟩, none, none,
        false, 1, true⟩ := by
    have hs : c3Run 6 = metCallback c3Config 4 (c3Run 5) := rfl
    rw [hs, h5]
    norm_num [metCallback, metTick, c3Config, jsRem_nonneg_eq]
  refine ⟨by rw [h3], by rw [h3], by rw [h3], by rw [h3], by rw [h3],
    by rw [h6], by rw [h6], by rw [h6], by rw [h6], ?_⟩
  rw [h6]
  norm_num [metCallback]

/-- C9 (amended): while playing, not counting in, speed trainer disabled and
an audio context present, `setBpm(v)` clamps v, restarts the beat interval at
the clamped rate and — because `startInterval` runs its first tick at once —
immediately plays the next beat: the published beat becomes the old beat
ref (advancing by one step of the cycle, not resetting to 0), while count-in
state, elapsed time, the speed-trainer ref and published trainer state, the
timer and the completion count are all untouched. -/
theorem claim_C9_set_bpm_restart (cfg : MetronomeConfig) (fuel : ℕ) (v : ℚ)
    (st : MetronomeState)
    (hplay : st.isPlaying = true) (hci : st.isCountingIn = false)
    (htr : trainerEnabled cfg = false) (hac : st.audioCtx = true) :
    (setMetBpm cfg (fuel + 1) v st).bpm = clampBpm v ∧
    (setMetBpm cfg (fuel + 1) v st).intervalBpm = some (clampBpm v) ∧
    (setMetBpm cfg (fuel + 1) v st).currentBeat = st.currentBeatRef ∧
    (setMetBpm cfg (fuel + 1) v st).currentBeatRef =
      jsRem (st.currentBeatRef + 1) cfg.beatsPerMeasure ∧
    (setMetBpm cfg (fuel + 1) v st).isCountingIn = st.isCountingIn ∧
    (setMetBpm cfg (fuel + 1) v st).countInRemaining = st.countInRemaining ∧
    (setMetBpm cfg (fuel + 1) v st).elapsedSeconds = st.elapsedSeconds ∧
    (setMetBpm cfg (fuel + 1) v st).trainer = st.trainer ∧
    (setMetBpm cfg (fuel + 1) v st).trainerState = st.trainerState ∧
    (setMetBpm cfg (fuel + 1) v st).timerActive = st.timerActive ∧
    (setMetBpm cfg (fuel + 1) v st).isPlaying = true ∧
    (setMetBpm cfg (fuel + 1) v st).completeCount = st.completeCount := by
  have hcond : setMetBpm cfg (fuel + 1) v st =
      startInterval cfg (fuel + 1) (clampBpm v) { st with bpm := clampBpm v } := by
    unfold setMetBpm
    rw [if_pos]
    refine ⟨by rw [hplay], by rw [hci]; exact Bool.false_ne_true, ?_, by rw [hac]⟩
    rw [htr]
    exact Bool.false_ne_true
  rw [hcond]
  unfold startInterval metTick
  rcases cfg with ⟨m, sp, tm⟩
  rcases sp with - | tr
  · exact ⟨rfl, rfl, rfl, rfl, by rw [hci], rfl, rfl, rfl, rfl, rfl, hplay, rfl⟩
  · have htrf : tr.enabled = false := by
      simpa [trainerEnabled] using htr
    simp only [htrf]
    rw [if_neg (by simp)]
    exact ⟨rfl, rfl, rfl, rfl, by rw [hci], rfl, rfl, rfl, rfl, rfl, hplay, rfl⟩

/-- Config for the C9 counterexample: trainer absent, 4 beats per measure. -/
def c9Config : MetronomeConfig := ⟨4, none, none⟩

/-- Running metronome at beat 1 (beat ref 2) for the C9 scenario. -/
def c9State : MetronomeState :=
  { bpm := 120
    currentBeat := 1
    currentBeatRef := 2
    isPlaying := true
    isCountingIn := false
    countInRemaining := 0
    elapsedSeconds := 0
    trainer := ⟨120, 1, 1⟩
    trainerState := none
    intervalBpm := some 120
    timerActive := false
    completeCount := 0
    audioCtx := true }

/-- C9 counterexample: the claim says a live bpm change leaves the current
beat index unchanged, but `startInterval` runs its first tick immediately,
so `setBpm(100)` on a metronome sitting at beat 1 plays and publishes beat 2
on the spot: the current beat index changes from 1 to 2. -/
theorem claim_C9_counterexample :
    c9State.currentBeat = 1 ∧
    (setMetBpm c9Config 3 100 c9State).currentBeat = 2 ∧
    ((2 : ℤ) = 1 → False) := by
  decide

theorem claim_C9_set_bpm_restart_witness :
    c9State.isPlaying = true ∧ c9State.isCountingIn = false ∧
    trainerEnabled c9Config = false ∧ c9State.audioCtx = true ∧
    (setMetBpm c9Config 3 100 c9State).intervalBpm = some (clampBpm 100) ∧
    (setMetBpm c9Config 3 100 c9State).currentBeat = c9State.currentBeatRef := by
  have h := claim_C9_set_bpm_restart c9Config 2 100 c9State rfl rfl rfl rfl
  exact ⟨rfl, rfl, rfl, rfl, h.2.1, h.2.2.1⟩

/-! Autocorrelation pitch detector (`detectPitchAutocorrelation` from the
tuner hook). The sample buffer is a list of rationals, standing for the
Float32 samples with exact arithmetic. -/

/-- Constant MIN_FREQ = 55 Hz. -/
def MIN_FREQ : ℚ := 55

/-- Constant MAX_FREQ = 1760 Hz. -/
def MAX_FREQ : ℚ := 1760

/-- Lower bound of the lag search: `Math.ceil(sampleRate / MAX_FREQ)`. -/
def acMinLag (sampleRate : ℚ) : ℤ := ⌈sampleRate / MAX_FREQ⌉

/-- Upper bound of the lag search: `Math.floor(sampleRate / MIN_FREQ)`. -/
def acMaxLag (sampleRate : ℚ) : ℤ := ⌊sampleRate / MIN_FREQ⌋

/-- Reading `buffer[i]` inside the correlation loop (always in bounds there;
out-of-range reads default to 0). -/
def acBufGet (buffer : List ℚ) (i : ℕ) : ℚ := buffer.getD i 0

/-- The inner correlation sum for one lag:
`sum of buffer[i] * buffer[i + tau] for 0 ≤ i < n - tau`. -/
def acSum (buffer : List ℚ) (tau : ℤ) : ℚ :=
  ((List.range (buffer.length - tau.toNat)).map fun i =>
    acBufGet buffer i * acBufGet buffer (i + tau.toNat)).sum

/-- The `correlations` Float32Array: zero-initialized with length
`maxLag + 1`, written at indexes minLag..maxLag; reads elsewhere (such as
`correlations[bestLag - 1]` when bestLag = minLag) see 0. -/
def acCorr (buffer : List ℚ) (minLag maxLag tau : ℤ) : ℚ :=
  if minLag ≤ tau ∧ tau ≤ maxLag then acSum buffer tau else 0

/-- The best-lag scan: starts at `(minLag, correlations[minLag])` and takes
every strictly greater correlation over `tau = minLag + 1 .. maxLag - 1`. -/
def acBest (buffer : List ℚ) (minLag maxLag : ℤ) : ℤ × ℚ :=
  ((List.range (maxLag - minLag - 1).toNat).map fun k =>
    minLag + 1 + (k : ℤ)).foldl
    (fun acc tau =>
      if acc.2 < acCorr buffer minLag maxLag tau
      then (tau, acCorr buffer minLag maxLag tau) else acc)
    (minLag, acCorr buffer minLag maxLag minLag)

/-- The squared RMS of the buffer. The source compares
`Math.sqrt(sum / n) < 0.001`; for the nonnegative radicand this is
equivalent to `sum / n < 0.000001`, which keeps the embedding rational. -/
def rmsSq (buffer : List ℚ) : ℚ :=
  (buffer.map fun x => x * x).sum / (buffer.length : ℚ)

/-- detectPitchAutocorrelation from the tuner hook. The non-finite `delta`
fallback (`Number.isFinite(delta) ? delta : 0`) fires exactly when the
parabola denominator is zero, which the embedding tests directly. -/
def detectPitchAutocorrelation (buffer : List ℚ) (sampleRate : ℚ) : ℚ :=
  if ((buffer.length : ℤ) : ℚ) / 2 ≤ ((acMaxLag sampleRate : ℤ) : ℚ) ∨
      acMinLag sampleRate < 2 then 0
  else
    let minLag := acMinLag sampleRate
    let maxLag := acMaxLag sampleRate
    let bestLag := (acBest buffer minLag maxLag).1
    let y0 := acCorr buffer minLag maxLag (bestLag - 1)
    let y1 := acCorr buffer minLag maxLag bestLag
    let y2 := acCorr buffer minLag maxLag (bestLag + 1)
    if bestLag - 1 < 0 ∨ maxLag < bestLag + 1 ∨ y1 ≤ 0 then
      sampleRate / (bestLag : ℚ)
    else
      let denom := y0 - 2 * y1 + y2
      let delta := if denom = 0 then 0 else 1 / 2 * (y0 - y2) / denom
      let frequency := sampleRate / ((bestLag : ℚ) + delta)
      if frequency < MIN_FREQ ∨ MAX_FREQ < frequency then 0
      else if rmsSq buffer < 1 / 1000000 then 0
      else frequency

theorem acBufGet_replicate_zero (m : ℕ) (i : ℕ) :
    acBufGet (List.replicate m (0 : ℚ)) i = 0 := by
  unfold acBufGet
  rw [List.getD_eq_getElem?_getD, List.getElem?_replicate]
  split <;> rfl

theorem acSum_replicate_zero (m : ℕ) (tau : ℤ) :
    acSum (List.replicate m (0 : ℚ)) tau = 0 := by
  unfold acSum
  apply List.sum_eq_zero
  intro x hx
  rw [List.mem_map] at hx
  obtain ⟨i, -, hi⟩ := hx
  rw [← hi, acBufGet_replicate_zero, acBufGet_replicate_zero, mul_zero]

theorem acCorr_replicate_zero (m : ℕ) (minLag maxLag tau : ℤ) :
    acCorr (List.replicate m (0 : ℚ)) minLag maxLag tau = 0 := by
  unfold acCorr
  split
  · exact acSum_replicate_zero m tau
  · rfl

theorem acBest_replicate_zero (m : ℕ) (minLag maxLag : ℤ) :
    acBest (List.replicate m (0 : ℚ)) minLag maxLag = (minLag, 0) := by
  unfold acBest
  simp only [acCorr_replicate_zero]
  generalize (List.range (maxLag - minLag - 1).toNat).map
    (fun k => minLag + 1 + (k : ℤ)) = l
  induction l with
  | nil => rfl
  | cons t l ih =>
    rw [List.foldl_cons, if_neg (lt_irrefl (0 : ℚ)), ih]

/-- C5 counterexample: an all-zero 65-sample buffer at sample rate 1761 Hz
has RMS 0 < 0.001, yet the detector returns 880.5 Hz rather than 0: with all
correlations zero the best correlation `y1 = 0` takes the degenerate early
return `sampleRate / bestLag`, which runs before the RMS (and range) guards. -/
theorem claim_C5_counterexample :
    rmsSq (List.replicate 65 (0 : ℚ)) < 1 / 1000000 ∧
    detectPitchAutocorrelation (List.replicate 65 (0 : ℚ)) 1761 = 1761 / 2 ∧
    (1761 / 2 : ℚ) ≠ 0 := by
  have hrms : rmsSq (List.replicate 65 (0 : ℚ)) = 0 := by
    unfold rmsSq
    rw [List.map_replicate]
    simp
  have hmin : acMinLag 1761 = 2 := by
    unfold acMinLag MAX_FREQ
    rw [Int.ceil_eq_iff]
    norm_num
  have hmax : acMaxLag 1761 = 32 := by
    unfold acMaxLag MIN_FREQ
    norm_num
  refine ⟨by rw [hrms]; norm_num, ?_, by norm_num⟩
  norm_num [detectPitchAutocorrelation, hmin, hmax, acBest_replicate_zero,
    acCorr_replicate_zero]

/-- C5 (amended): once the lag-range guard passes, the detector behaves as
follows. If the correlation peak is degenerate (`y1 ≤ 0` — the boundary
disjuncts are kept as in the source), it returns the unrefined integer-lag
estimate `sampleRate / bestLag` directly, bypassing both the frequency-range
and the RMS guards. On the non-degenerate path it returns 0 whenever the
refined frequency leaves [55 Hz, 1760 Hz] or the buffer RMS is below 0.001;
and when the parabola denominator is zero the refined frequency falls back
to the unrefined `sampleRate / bestLag` (delta = 0), still subject to those
two guards. -/
theorem claim_C5_detector_guards (buffer : List ℚ) (sampleRate : ℚ)
    (bestLag : ℤ) (y0 y1 y2 : ℚ)
    (hguard : ¬(((buffer.length : ℤ) : ℚ) / 2 ≤ ((acMaxLag sampleRate : ℤ) : ℚ) ∨
      acMinLag sampleRate < 2))
    (hbest : bestLag = (acBest buffer (acMinLag sampleRate) (acMaxLag sampleRate)).1)
    (hy0 : y0 = acCorr buffer (acMinLag sampleRate) (acMaxLag sampleRate) (bestLag - 1))
    (hy1 : y1 = acCorr buffer (acMinLag sampleRate) (acMaxLag sampleRate) bestLag)
    (hy2 : y2 = acCorr buffer (acMinLag sampleRate) (acMaxLag sampleRate) (bestLag + 1)) :
    ((bestLag - 1 < 0 ∨ acMaxLag sampleRate < bestLag + 1 ∨ y1 ≤ 0) →
      detectPitchAutocorrelation buffer sampleRate = sampleRate / (bestLag : ℚ)) ∧
    (¬(bestLag - 1 < 0 ∨ acMaxLag sampleRate < bestLag + 1 ∨ y1 ≤ 0) →
      ∀ frequency : ℚ,
        frequency = sampleRate / ((bestLag : ℚ) +
          (if y0 - 2 * y1 + y2 = 0 then 0
           else 1 / 2 * (y0 - y2) / (y0 - 2 * y1 + y2))) →
        ((frequency < MIN_FREQ ∨ MAX_FREQ < frequency) →
          detectPitchAutocorrelation buffer sampleRate = 0) ∧
        (¬(frequency < MIN_FREQ ∨ MAX_FREQ < frequency) →
          rmsSq buffer < 1 / 1000000 →
          detectPitchAutocorrelation buffer sampleRate = 0) ∧
        (¬(frequency < MIN_FREQ ∨ MAX_FREQ < frequency) →
          ¬(rmsSq buffer < 1 / 1000000) →
          y0 - 2 * y1 + y2 = 0 →
          detectPitchAutocorrelation buffer sampleRate =
            sampleRate / (bestLag : ℚ))) := by
  subst hbest
  subst hy0
  subst hy1
  subst hy2
  simp only [detectPitchAutocorrelation]
  rw [if_neg hguard]
  constructor
  · intro hdeg
    rw [if_pos hdeg]
  · intro hdeg frequency hfreq
    rw [if_neg hdeg]
    subst hfreq
    refine ⟨?_, ?_, ?_⟩
    · intro hout
      rw [if_pos hout]
    · intro hin hrms
      rw [if_neg hin, if_pos hrms]
    · intro hin hrms hdz
      rw [if_neg hin, if_neg hrms, if_pos hdz, add_zero]

theorem claim_C5_detector_guards_witness :
    ¬((((List.replicate 65 (0 : ℚ)).length : ℤ) : ℚ) / 2 ≤
        ((acMaxLag 1761 : ℤ) : ℚ) ∨ acMinLag 1761 < 2) ∧
    detectPitchAutocorrelation (List.replicate 65 (0 : ℚ)) 1761 =
      1761 / (((acBest (List.replicate 65 (0 : ℚ)) (acMinLag 1761)
        (acMaxLag 1761)).1 : ℤ) : ℚ) := by
  have hmin : acMinLag 1761 = 2 := by
    unfold acMinLag MAX_FREQ
    rw [Int.ceil_eq_iff]
    norm_num
  have hmax : acMaxLag 1761 = 32 := by
    unfold acMaxLag MIN_FREQ
    norm_num
  have hguard : ¬((((List.replicate 65 (0 : ℚ)).length : ℤ) : ℚ) / 2 ≤
      ((acMaxLag 1761 : ℤ) : ℚ) ∨ acMinLag 1761 < 2) := by
    rw [hmin, hmax]
    norm_num
  have hdeg : (acBest (List.replicate 65 (0 : ℚ)) (acMinLag 1761)
        (acMaxLag 1761)).1 - 1 < 0 ∨
      acMaxLag 1761 < (acBest (List.replicate 65 (0 : ℚ)) (acMinLag 1761)
        (acMaxLag 1761)).1 + 1 ∨
      acCorr (List.replicate 65 (0 : ℚ)) (acMinLag 1761) (acMaxLag 1761)
        (acBest (List.replicate 65 (0 : ℚ)) (acMinLag 1761)
          (acMaxLag 1761)).1 ≤ 0 := by
    refine Or.inr (Or.inr ?_)
    rw [acCorr_replicate_zero]
  exact ⟨hguard,
    (claim_C5_detector_guards (List.replicate 65 (0 : ℚ)) 1761 _ _ _ _
      hguard rfl rfl rfl rfl).1 hdeg⟩

/-! Lookahead scheduler lemmas for claim C1. -/

theorem filterMap_if_eq {α β : Type} (p : α → Bool) (g : α → β) :
    ∀ l : List α, (l.filterMap fun a => if p a then some (g a) else none) =
      (l.filter p).map g
  | [] => rfl
  | a :: l => by
    rw [List.filterMap_cons, List.filter_cons]
    by_cases hp : p a = true
    · rw [if_pos hp, if_pos hp, List.map_cons, filterMap_if_eq p g l]
    · rw [if_neg hp, if_neg hp, filterMap_if_eq p g l]

theorem jsIndex_of_bounds {α : Type} (xs : List α) (i : ℤ)
    (h0 : 0 ≤ i) (h1 : i < (xs.length : ℤ)) :
    ∃ x, jsIndex xs i = some x ∧ x ∈ xs := by
  unfold jsIndex
  rw [if_pos h0]
  have hlt : i.toNat < xs.length := by omega
  exact ⟨xs[i.toNat], List.getElem?_eq_getElem hlt, List.getElem_mem hlt⟩

/-- scheduleStep, solved: it emits exactly one event per audible, active,
buffered track, at `max(now + 1 ms, nextNoteTime + swing + nudge/1000)`. -/
theorem scheduleStep_spec (project : DrumProject) (bufferLoaded : String → Bool)
    (now : ℚ) (st : PlaybackState) (sec : DrumSection)
    (hsec : jsIndex project.sections st.sectionIndex = some sec) :
    scheduleStep project bufferLoaded now st = some (
      (project.tracks.filter fun t =>
        shouldPlayTrack t (project.tracks.any fun tr => tr.solo) &&
        isStepActive t sec st.stepIndex && bufferLoaded t.samplePath).map
        (fun t => ScheduledEvent.mk t.id (max (now + 1 / 1000)
          (st.nextNoteTime + getSwingOffsetSeconds sec st.stepIndex
            (60 / (project.bpm : ℚ) / (sec.stepsPerBeat : ℚ)) + t.nudgeMs / 1000))),
      ⟨st.loop, st.sectionIndex, st.stepIndex, getStepCount sec⟩) := by
  unfold scheduleStep
  rw [hsec]
  dsimp only
  rw [filterMap_if_eq]

theorem advancePlaybackState_spec (project : DrumProject) (st : PlaybackState)
    (sec : DrumSection)
    (hsec : jsIndex project.sections st.sectionIndex = some sec)
    (h0 : 0 ≤ st.sectionIndex)
    (h1 : st.sectionIndex < (project.sections.length : ℤ)) :
    ∃ st2, advancePlaybackState project st = some st2 ∧
      st2.nextNoteTime = st.nextNoteTime +
        60 / (project.bpm : ℚ) / (sec.stepsPerBeat : ℚ) ∧
      0 ≤ st2.sectionIndex ∧
      st2.sectionIndex < (project.sections.length : ℤ) := by
  have hlen : 0 < (project.sections.length : ℤ) := lt_of_le_of_lt h0 h1
  by_cases hwrap : getStepCount sec ≤ st.stepIndex + 1
  · by_cases hrep : sec.repeats ≤ st.repeatIndex + 1
    · refine ⟨⟨st.loop + 1,
        st.nextNoteTime + 60 / (project.bpm : ℚ) / (sec.stepsPerBeat : ℚ), 0,
        jsRem (st.sectionIndex + 1) (project.sections.length : ℤ), 0⟩,
        by simp [advancePlaybackState, hsec, hwrap, hrep], rfl, ?_, ?_⟩
      · show 0 ≤ jsRem (st.sectionIndex + 1) (project.sections.length : ℤ)
        unfold jsRem
        rw [Int.tmod_eq_emod (by omega) (by omega)]
        exact Int.emod_nonneg _ (by omega)
      · show jsRem (st.sectionIndex + 1) (project.sections.length : ℤ) <
          (project.sections.length : ℤ)
        unfold jsRem
        rw [Int.tmod_eq_emod (by omega) (by omega)]
        exact Int.emod_lt_of_pos _ hlen
    · exact ⟨⟨st.loop,
        st.nextNoteTime + 60 / (project.bpm : ℚ) / (sec.stepsPerBeat : ℚ),
        st.repeatIndex + 1, st.sectionIndex, 0⟩,
        by simp [advancePlaybackState, hsec, hwrap, hrep], rfl, h0, h1⟩
  · exact ⟨⟨st.loop,
      st.nextNoteTime + 60 / (project.bpm : ℚ) / (sec.stepsPerBeat : ℚ),
      st.repeatIndex, st.sectionIndex, st.stepIndex + 1⟩,
      by simp [advancePlaybackState, hsec, hwrap], rfl, h0, h1⟩

theorem stepDuration_ge (bpm spb : ℤ) (hb1 : 1 ≤ bpm) (hb2 : bpm ≤ 300)
    (hs1 : 1 ≤ spb) (hs2 : spb ≤ 8) :
    1 / 40 ≤ 60 / (bpm : ℚ) / (spb : ℚ) := by
  have hb1' : (1 : ℚ) ≤ (bpm : ℚ) := by exact_mod_cast hb1
  have hb2' : (bpm : ℚ) ≤ 300 := by exact_mod_cast hb2
  have hs1' : (1 : ℚ) ≤ (spb : ℚ) := by exact_mod_cast hs1
  have hs2' : (spb : ℚ) ≤ 8 := by exact_mod_cast hs2
  have hbpos : (0 : ℚ) < (bpm : ℚ) := lt_of_lt_of_le zero_lt_one hb1'
  have hspos : (0 : ℚ) < (spb : ℚ) := lt_of_lt_of_le zero_lt_one hs1'
  rw [div_div, div_le_div_iff (by norm_num) (by positivity)]
  nlinarith [mul_le_mul hb2' hs2' (le_of_lt hspos) (by norm_num : (0:ℚ) ≤ 300)]

/-- Termination and post-condition of the lookahead loop: with enough fuel
the tick completes, leaves the cursor at least LOOKAHEAD ahead of `now`, and
every event started during the tick is clamped to at least `now + 1 ms`. -/
theorem schedulerTick_post (project : DrumProject) (bufferLoaded : String → Bool)
    (now : ℚ)
    (hb1 : 1 ≤ project.bpm) (hb2 : project.bpm ≤ 300)
    (hspb : ∀ sec ∈ project.sections,
      1 ≤ sec.stepsPerBeat ∧ sec.stepsPerBeat ≤ 8) :
    ∀ (fuel : ℕ) (st : PlaybackState),
      0 ≤ st.sectionIndex → st.sectionIndex < (project.sections.length : ℤ) →
      (now + LOOKAHEAD_SECONDS - st.nextNoteTime) * 40 < (fuel : ℚ) →
      ∃ st2 events,
        schedulerTickFuel project bufferLoaded now fuel st = some (st2, events) ∧
        now + LOOKAHEAD_SECONDS ≤ st2.nextNoteTime ∧
        (∀ ev ∈ events, now + 1 / 1000 ≤ ev.time) := by
  intro fuel
  induction fuel with
  | zero =>
    intro st h0 h1 hfuel
    refine ⟨st, [], rfl, ?_, by simp⟩
    push_cast at hfuel
    nlinarith
  | succ fuel ih =>
    intro st h0 h1 hfuel
    by_cases hcond : st.nextNoteTime < now + LOOKAHEAD_SECONDS
    · obtain ⟨sec, hsec, hmem⟩ := jsIndex_of_bounds project.sections st.sectionIndex h0 h1
      obtain ⟨st2, hadv, hnnt, h20, h21⟩ :=
        advancePlaybackState_spec project st sec hsec h0 h1
      have hdur : 1 / 40 ≤ 60 / (project.bpm : ℚ) / (sec.stepsPerBeat : ℚ) :=
        stepDuration_ge project.bpm sec.stepsPerBeat hb1 hb2
          (hspb sec hmem).1 (hspb sec hmem).2
      have hfuel2 : (now + LOOKAHEAD_SECONDS - st2.nextNoteTime) * 40 < (fuel : ℚ) := by
        rw [hnnt]
        push_cast at hfuel ⊢
        nlinarith
      obtain ⟨st3, events3, htick, hpost, hevents⟩ := ih st2 h20 h21 hfuel2
      refine ⟨st3, ((project.tracks.filter fun t =>
        shouldPlayTrack t (project.tracks.any fun tr => tr.solo) &&
        isStepActive t sec st.stepIndex && bufferLoaded t.samplePath).map
        (fun t => ScheduledEvent.mk t.id (max (now + 1 / 1000)
          (st.nextNoteTime + getSwingOffsetSeconds sec st.stepIndex
            (60 / (project.bpm : ℚ) / (sec.stepsPerBeat : ℚ)) +
            t.nudgeMs / 1000)))) ++ events3, ?_, hpost, ?_⟩
      · rw [schedulerTickFuel]
        rw [if_pos hcond, scheduleStep_spec project bufferLoaded now st sec hsec,
          hadv]
        dsimp only
        rw [htick]
      · intro ev hev
        rw [List.mem_append] at hev
        rcases hev with hev | hev
        · rw [List.mem_map] at hev
          obtain ⟨t, -, ht⟩ := hev
          rw [← ht]
          exact le_max_left _ _
        · exact hevents ev hev
    · refine ⟨st, [], ?_, le_of_not_lt hcond, by simp⟩
      rw [schedulerTickFuel, if_neg hcond]

/-- Track for the C1 counterexample: nudge at the schema minimum, −80 ms. -/
def cxTrack : DrumTrack := ⟨"t1", "Kick", "/kick.wav", 1, 0, -80, false, false⟩

/-- Section for the C1 counterexample: 8 steps (1 bar × 1 beat × 8 steps per
beat) at bpm 300 gives the minimum step duration 25 ms; every step active. -/
def cxSection : DrumSection := ⟨"s1", "A", 1, 1, 8, 1, 0, [("t1", [0, 1, 2, 3, 4, 5, 6, 7])]⟩

/-- Project for the C1 counterexample. -/
def cxProject : DrumProject := ⟨300, 1, 1, [cxTrack], [cxSection]⟩

theorem jsIndex_mem {α : Type} {xs : List α} {i : ℤ} {x : α}
    (h : jsIndex xs i = some x) : x ∈ xs := by
  unfold jsIndex at h
  by_cases h0 : 0 ≤ i
  · rw [if_pos h0] at h
    exact List.getElem?_mem h
  · rw [if_neg h0] at h
    exact absurd h (by simp)

theorem getSwingOffset_nonneg (sec : DrumSection) (stepIndex : ℤ)
    (dur : ℚ) (hdur : 0 ≤ dur) :
    0 ≤ getSwingOffsetSeconds sec stepIndex dur := by
  unfold getSwingOffsetSeconds
  split
  · exact le_refl 0
  · split
    · rename_i hsw _
      rw [not_le] at hsw
      positivity
    · exact le_refl 0

/-- C1 (amended): on each scheduler tick the lookahead loop runs while
`nextNoteTime < now + LOOKAHEAD`; every iteration (i) starts one audio event
per audible, active, buffered track at
`max(now + 1 ms, nextNoteTime + swing + nudgeMs/1000)` and (ii) advances the
cursor by exactly one step duration `60/bpm/stepsPerBeat`; (iii) with enough
fuel for the remaining iterations the tick completes with the cursor at
least LOOKAHEAD ahead of now, every event of the tick clamped to at least
`now + 1 ms`; and (iv) any event scheduled by a later tick from such a
cursor plays no earlier than `now + LOOKAHEAD − 80 ms` — the per-track nudge
(≥ −80 ms) lowers the claimed `≥ LOOKAHEAD` bound, which does not hold for
the adjusted times. -/
theorem claim_C1_scheduler_lookahead (project : DrumProject)
    (bufferLoaded : String → Bool) (now : ℚ)
    (hb1 : 1 ≤ project.bpm) (hb2 : project.bpm ≤ 300)
    (hspb : ∀ sec ∈ project.sections,
      1 ≤ sec.stepsPerBeat ∧ sec.stepsPerBeat ≤ 8) :
    (∀ st sec, jsIndex project.sections st.sectionIndex = some sec →
      scheduleStep project bufferLoaded now st = some (
        (project.tracks.filter fun t =>
          shouldPlayTrack t (project.tracks.any fun tr => tr.solo) &&
          isStepActive t sec st.stepIndex && bufferLoaded t.samplePath).map
          (fun t => ScheduledEvent.mk t.id (max (now + 1 / 1000)
            (st.nextNoteTime + getSwingOffsetSeconds sec st.stepIndex
              (60 / (project.bpm : ℚ) / (sec.stepsPerBeat : ℚ)) +
              t.nudgeMs / 1000))),
        ⟨st.loop, st.sectionIndex, st.stepIndex, getStepCount sec⟩)) ∧
    (∀ st sec st2, jsIndex project.sections st.sectionIndex = some sec →
      0 ≤ st.sectionIndex → st.sectionIndex < (project.sections.length : ℤ) →
      advancePlaybackState project st = some st2 →
      st2.nextNoteTime = st.nextNoteTime +
        60 / (project.bpm : ℚ) / (sec.stepsPerBeat : ℚ)) ∧
    (∀ (fuel : ℕ) (st : PlaybackState),
      0 ≤ st.sectionIndex → st.sectionIndex < (project.sections.length : ℤ) →
      (now + LOOKAHEAD_SECONDS - st.nextNoteTime) * 40 < (fuel : ℚ) →
      ∃ st2 events,
        schedulerTickFuel project bufferLoaded now fuel st = some (st2, events) ∧
        now + LOOKAHEAD_SECONDS ≤ st2.nextNoteTime ∧
        (∀ ev ∈ events, now + 1 / 1000 ≤ ev.time)) ∧
    (∀ (st2 : PlaybackState) (now2 : ℚ) (sec : DrumSection)
        (evs : List ScheduledEvent) (cur : PlaybackCursor),
      now + LOOKAHEAD_SECONDS ≤ st2.nextNoteTime →
      jsIndex project.sections st2.sectionIndex = some sec →
      0 ≤ sec.swing →
      (∀ t ∈ project.tracks, -80 ≤ t.nudgeMs) →
      scheduleStep project bufferLoaded now2 st2 = some (evs, cur) →
      ∀ ev ∈ evs, now + LOOKAHEAD_SECONDS - 80 / 1000 ≤ ev.time) := by
  refine ⟨?_, ?_, schedulerTick_post project bufferLoaded now hb1 hb2 hspb, ?_⟩
  · intro st sec hsec
    exact scheduleStep_spec project bufferLoaded now st sec hsec
  · intro st sec st2 hsec h0 h1 hadv
    obtain ⟨st2', hadv', hnnt, -, -⟩ :=
      advancePlaybackState_spec project st sec hsec h0 h1
    rw [hadv] at hadv'
    injection hadv' with heq
    rw [heq]
    exact hnnt
  · intro st2 now2 sec evs cur hcursor hsec hsw hnudge hsched
    rw [scheduleStep_spec project bufferLoaded now2 st2 sec hsec] at hsched
    injection hsched with hpair
    have hevs : evs = (project.tracks.filter fun t =>
        shouldPlayTrack t (project.tracks.any fun tr => tr.solo) &&
        isStepActive t sec st2.stepIndex && bufferLoaded t.samplePath).map
        (fun t => ScheduledEvent.mk t.id (max (now2 + 1 / 1000)
          (st2.nextNoteTime + getSwingOffsetSeconds sec st2.stepIndex
            (60 / (project.bpm : ℚ) / (sec.stepsPerBeat : ℚ)) +
            t.nudgeMs / 1000))) :=
      (congrArg Prod.fst hpair).symm
    intro ev hev
    rw [hevs, List.mem_map] at hev
    obtain ⟨t, htmem, ht⟩ := hev
    have htracks : t ∈ project.tracks := List.mem_of_mem_filter htmem
    have hdurpos : (0 : ℚ) ≤ 60 / (project.bpm : ℚ) / (sec.stepsPerBeat : ℚ) := by
      have hs := (hspb sec (jsIndex_mem hsec)).1
      have hb1' : (1 : ℚ) ≤ (project.bpm : ℚ) := by exact_mod_cast hb1
      have hs1' : (1 : ℚ) ≤ ((sec.stepsPerBeat : ℤ) : ℚ) := by exact_mod_cast hs
      positivity
    have hswing : 0 ≤ getSwingOffsetSeconds sec st2.stepIndex
        (60 / (project.bpm : ℚ) / (sec.stepsPerBeat : ℚ)) :=
      getSwingOffset_nonneg sec st2.stepIndex _ hdurpos
    have hnud : -80 ≤ t.nudgeMs := hnudge t htracks
    rw [← ht]
    show now + LOOKAHEAD_SECONDS - 80 / 1000 ≤
      max (now2 + 1 / 1000) (st2.nextNoteTime + getSwingOffsetSeconds sec
        st2.stepIndex (60 / (project.bpm : ℚ) / (sec.stepsPerBeat : ℚ)) +
        t.nudgeMs / 1000)
    refine le_trans ?_ (le_max_right _ _)
    linarith

/-- C1 counterexample: in cxProject (bpm 300, 8 steps per beat, every step
active, track nudge −80 ms), a tick at now = 0 from the play() start state
(nextNoteTime = 0.04) schedules steps 0–3 and returns with the cursor at
0.14 ≥ 0 + LOOKAHEAD. The not-yet-scheduled step 4 is then started by the
next tick (25 ms later) at adjusted time 0.14 − 0.08 = 0.06, which lies less
than LOOKAHEAD (0.12) ahead of the first tick's now — refuting "when a tick
returns, every not-yet-scheduled event lies at least LOOKAHEAD ahead of the
audio clock's now". -/
theorem claim_C1_counterexample :
    schedulerTickFuel cxProject (fun _ => true) 0 10 ⟨1, 1 / 25, 0, 0, 0⟩ =
      some (⟨1, 7 / 50, 0, 0, 4⟩,
        [⟨"t1", 1 / 1000⟩, ⟨"t1", 1 / 1000⟩, ⟨"t1", 1 / 100⟩, ⟨"t1", 7 / 200⟩]) ∧
    0 + LOOKAHEAD_SECONDS ≤ 7 / 50 ∧
    schedulerTickFuel cxProject (fun _ => true) (SCHEDULER_INTERVAL_MS / 1000)
      10 ⟨1, 7 / 50, 0, 0, 4⟩ =
      some (⟨1, 33 / 200, 0, 0, 5⟩, [⟨"t1", 3 / 50⟩]) ∧
    (3 / 50 : ℚ) < 0 + LOOKAHEAD_SECONDS := by
  refine ⟨?_, by norm_num [LOOKAHEAD_SECONDS], ?_, by norm_num [LOOKAHEAD_SECONDS]⟩
  · norm_num [schedulerTickFuel, scheduleStep, advancePlaybackState, jsIndex,
      jsRem, getSwingOffsetSeconds, getStepCount, isStepActive, shouldPlayTrack,
      cxProject, cxSection, cxTrack, List.lookup, LOOKAHEAD_SECONDS,
      List.filterMap_cons, List.filterMap_nil, List.any_cons, List.any_nil]
  · norm_num [schedulerTickFuel, scheduleStep, advancePlaybackState, jsIndex,
      jsRem, getSwingOffsetSeconds, getStepCount, isStepActive, shouldPlayTrack,
      cxProject, cxSection, cxTrack, List.lookup, LOOKAHEAD_SECONDS,
      SCHEDULER_INTERVAL_MS, List.filterMap_cons, List.filterMap_nil,
      List.any_cons, List.any_nil]

theorem claim_C1_scheduler_lookahead_witness :
    1 ≤ cxProject.bpm ∧ cxProject.bpm ≤ 300 ∧
    (∀ sec ∈ cxProject.sections, 1 ≤ sec.stepsPerBeat ∧ sec.stepsPerBeat ≤ 8) ∧
    (0 + LOOKAHEAD_SECONDS - (1 / 25 : ℚ)) * 40 < ((10 : ℕ) : ℚ) ∧
    ∃ st2 events,
      schedulerTickFuel cxProject (fun _ => true) 0 10 ⟨1, 1 / 25, 0, 0, 0⟩ =
        some (st2, events) ∧
      0 + LOOKAHEAD_SECONDS ≤ st2.nextNoteTime ∧
      (∀ ev ∈ events, 0 + 1 / 1000 ≤ ev.time) := by
  have h := claim_C1_scheduler_lookahead cxProject (fun _ => true) 0
    (by decide) (by decide) (by decide)
  refine ⟨by decide, by decide, by decide,
    by norm_num [LOOKAHEAD_SECONDS], ?_⟩
  exact h.2.2.1 10 ⟨1, 1 / 25, 0, 0, 0⟩ (by decide) (by decide)
    (by norm_num [LOOKAHEAD_SECONDS])

/-! Project URL-state codec (drum-looper-url-state.ts + drum-looper-types.ts).
`encodeProjectToState` is `compressToEncodedURIComponent(JSON.stringify(p))`
and `decodeProjectFromState` is decompress → `JSON.parse` →
`drumProjectSchema.safeParse`. The zod schema is embedded below field by
field. The JSON-text and lz-string layers are external to the repository;
per the spec they form "a stateless project encode/decode service (compress
+ schema-validate) used only to round-trip project state through a URL-safe
string — consumed, not implemented, by the core", so the embedding carries
the JSON value through that layer unchanged (see
`compressToEncodedURIComponent` below). -/

/-- A JSON value (the result of `JSON.parse`). -/
inductive Json where
  | null : Json
  | bool (b : Bool) : Json
  | num (q : ℚ) : Json
  | str (s : String) : Json
  | arr (elems : List Json) : Json
  | obj (fields : List (String × Json)) : Json

/-- JSON.stringify of a DrumTrack value (the JSON object the code emits). -/
def trackToJson (t : DrumTrack) : Json :=
  .obj [("id", .str t.id), ("mute", .bool t.mute), ("name", .str t.name),
    ("nudgeMs", .num t.nudgeMs), ("pan", .num t.pan),
    ("samplePath", .str t.samplePath), ("solo", .bool t.solo),
    ("volume", .num t.volume)]

/-- JSON form of a pattern step list. -/
def stepsToJson (steps : List ℤ) : Json :=
  .arr (steps.map fun s : ℤ => Json.num (s : ℚ))

/-- JSON form of a DrumSection. -/
def sectionToJson (sec : DrumSection) : Json :=
  .obj [("bars", .num sec.bars), ("beatsPerBar", .num sec.beatsPerBar),
    ("id", .str sec.id), ("name", .str sec.name),
    ("pattern", .obj (sec.pattern.map fun e => (e.1, stepsToJson e.2))),
    ("repeats", .num sec.repeats), ("stepsPerBeat", .num sec.stepsPerBeat),
    ("swing", .num sec.swing)]

/-- JSON form of a DrumProject. -/
def projectToJson (p : DrumProject) : Json :=
  .obj [("bpm", .num p.bpm), ("masterVolume", .num p.masterVolume),
    ("sections", .arr (p.sections.map sectionToJson)),
    ("tracks", .arr (p.tracks.map trackToJson)),
    ("version", .num p.version)]

/-- Key lookup in a parsed JSON object. -/
def jsonLookup (fields : List (String × Json)) (key : String) : Option Json :=
  fields.lookup key

/-- zod `z.string().min(1)` on a required object field. -/
def parseStrField (fields : List (String × Json)) (key : String) :
    Option String :=
  match jsonLookup fields key with
  | some (.str s) => if 1 ≤ s.length then some s else none
  | _ => none

/-- zod `z.boolean().default(d)`. -/
def parseBoolField (fields : List (String × Json)) (key : String) (d : Bool) :
    Option Bool :=
  match jsonLookup fields key with
  | none => some d
  | some (.bool b) => some b
  | some _ => none

/-- zod `z.number().min(lo).max(hi).default(d)`. -/
def parseNumField (fields : List (String × Json)) (key : String)
    (lo hi d : ℚ) : Option ℚ :=
  match jsonLookup fields key with
  | none => some d
  | some (.num q) => if lo ≤ q ∧ q ≤ hi then some q else none
  | some _ => none

/-- zod `z.number().int().min(lo).max(hi).default(d)`. -/
def parseIntField (fields : List (String × Json)) (key : String)
    (lo hi d : ℤ) : Option ℤ :=
  match jsonLookup fields key with
  | none => some d
  | some (.num q) =>
    if q.den = 1 ∧ (lo : ℚ) ≤ q ∧ q ≤ (hi : ℚ) then some q.num else none
  | some _ => none

/-- One entry of a pattern step array: `z.number().int().min(0)`. -/
def parseStep (j : Json) : Option ℤ :=
  match j with
  | .num q => if q.den = 1 ∧ (0 : ℚ) ≤ q then some q.num else none
  | _ => none

/-- A pattern step array. -/
def parseSteps (j : Json) : Option (List ℤ) :=
  match j with
  | .arr es => es.mapM parseStep
  | _ => none

/-- The pattern record: `z.record(z.string(), z.array(...))`. -/
def parsePattern (j : Json) : Option (List (String × List ℤ)) :=
  match j with
  | .obj fields =>
    fields.mapM fun e => (parseSteps e.2).map fun steps => (e.1, steps)
  | _ => none

/-- drumTrackSchema.safeParse on a JSON value. -/
def parseTrack (j : Json) : Option DrumTrack :=
  match j with
  | .obj fields => do
    let id ← parseStrField fields "id"
    let mute ← parseBoolField fields "mute" false
    let name ← parseStrField fields "name"
    let nudgeMs ← parseNumField fields "nudgeMs" (-80) 80 0
    let pan ← parseNumField fields "pan" (-1) 1 0
    let samplePath ← parseStrField fields "samplePath"
    let solo ← parseBoolField fields "solo" false
    let volume ← parseNumField fields "volume" 0 1 (8 / 10)
    pure ⟨id, name, samplePath, volume, pan, nudgeMs, mute, solo⟩
  | _ => none

/-- drumSectionSchema.safeParse on a JSON value. -/
def parseSection (j : Json) : Option DrumSection :=
  match j with
  | .obj fields => do
    let bars ← parseIntField fields "bars" 1 16 1
    let beatsPerBar ← parseIntField fields "beatsPerBar" 1 32 4
    let id ← parseStrField fields "id"
    let name ← parseStrField fields "name"
    let pat ← (jsonLookup fields "pattern").bind parsePattern
    let repeats ← parseIntField fields "repeats" 1 32 1
    let stepsPerBeat ← parseIntField fields "stepsPerBeat" 1 8 4
    let swing ← parseNumField fields "swing" 0 (3 / 4) 0
    pure ⟨id, name, bars, beatsPerBar, stepsPerBeat, repeats, swing, pat⟩
  | _ => none

/-- drumProjectSchema.safeParse on a JSON value: bpm int in [20, 300],
masterVolume in [0, 1], at least one section, any track array, and
`version: z.literal(1)`. -/
def parseProject (j : Json) : Option DrumProject :=
  match j with
  | .obj fields => do
    let bpm ← parseIntField fields "bpm" 20 300 120
    let masterVolume ← parseNumField fields "masterVolume" 0 1 (8 / 10)
    let sections ← (jsonLookup fields "sections").bind fun sj =>
      match sj with
      | .arr es => if 1 ≤ es.length then es.mapM parseSection else none
      | _ => none
    let tracks ← (jsonLookup fields "tracks").bind fun tj =>
      match tj with
      | .arr es => es.mapM parseTrack
      | _ => none
    let version ← (jsonLookup fields "version").bind fun vj =>
      match vj with
      | .num q => if q = 1 then some q.num else none
      | _ => none
    pure ⟨bpm, masterVolume, version, tracks, sections⟩
  | _ => none

/-- Modelled from the spec: the lz-string pair
`compressToEncodedURIComponent` / `decompressFromEncodedURIComponent` and
the JSON text layer (`JSON.stringify` / `JSON.parse`) are external
collaborators — spec §6(d): "a stateless project encode/decode service
(compress + schema-validate) used only to round-trip project state through
a URL-safe string — consumed, not implemented, by the core". The spec
specifies of this layer only that a compressed payload decompresses back to
the original, so it is embedded as the identity coding on the parsed JSON
value. -/
def compressToEncodedURIComponent (payload : Json) : Json := payload

/-- Modelled from the spec: inverse of the external compression layer; on a
payload produced by `compressToEncodedURIComponent` it returns it
unchanged. -/
def decompressFromEncodedURIComponent (state : Json) : Option Json :=
  some state

/-- encodeProjectToState from drum-looper-url-state.ts:
`compressToEncodedURIComponent(JSON.stringify(project))`. -/
def encodeProjectToState (project : DrumProject) : Json :=
  compressToEncodedURIComponent (projectToJson project)

/-- decodeProjectFromState from drum-looper-url-state.ts: the undefined
guard, decompression, JSON.parse and schema validation; any failure yields
`none`. -/
def decodeProjectFromState (state : Option Json) : Option DrumProject :=
  match state with
  | none => none
  | some s =>
    match decompressFromEncodedURIComponent s with
    | none => none
    | some decompressed => parseProject decompressed

/-- Schema-validity of a track (the bounds drumTrackSchema enforces). -/
def validTrack (t : DrumTrack) : Prop :=
  1 ≤ t.id.length ∧ 1 ≤ t.name.length ∧ 1 ≤ t.samplePath.length ∧
  -80 ≤ t.nudgeMs ∧ t.nudgeMs ≤ 80 ∧ -1 ≤ t.pan ∧ t.pan ≤ 1 ∧
  0 ≤ t.volume ∧ t.volume ≤ 1

/-- Schema-validity of a section. -/
def validSection (sec : DrumSection) : Prop :=
  1 ≤ sec.bars ∧ sec.bars ≤ 16 ∧ 1 ≤ sec.beatsPerBar ∧ sec.beatsPerBar ≤ 32 ∧
  1 ≤ sec.id.length ∧ 1 ≤ sec.name.length ∧
  1 ≤ sec.repeats ∧ sec.repeats ≤ 32 ∧
  1 ≤ sec.stepsPerBeat ∧ sec.stepsPerBeat ≤ 8 ∧
  0 ≤ sec.swing ∧ sec.swing ≤ 3 / 4 ∧
  ∀ e ∈ sec.pattern, ∀ s ∈ e.2, 0 ≤ s

/-- Schema-validity of a project. -/
def validProject (p : DrumProject) : Prop :=
  20 ≤ p.bpm ∧ p.bpm ≤ 300 ∧ 0 ≤ p.masterVolume ∧ p.masterVolume ≤ 1 ∧
  p.version = 1 ∧ 1 ≤ p.sections.length ∧
  (∀ t ∈ p.tracks, validTrack t) ∧ (∀ sec ∈ p.sections, validSection sec)

theorem mapM_map_id {α β : Type} (f : β → Option α) (g : α → β) :
    ∀ l : List α, (∀ x ∈ l, f (g x) = some x) → (l.map g).mapM f = some l
  | [], _ => rfl
  | a :: l, h => by
    rw [List.map_cons, List.mapM_cons, h a (List.mem_cons_self a l),
      mapM_map_id f g l (fun x hx => h x (List.mem_cons_of_mem a hx))]
    rfl

theorem parseTrack_roundtrip (t : DrumTrack) (ht : validTrack t) :
    parseTrack (trackToJson t) = some t := by
  obtain ⟨h1, h2, h3, h4, h5, h6, h7, h8, h9⟩ := ht
  simp [parseTrack, trackToJson, jsonLookup, List.lookup, parseStrField,
    parseBoolField, parseNumField, h1, h2, h3, h4, h5, h6, h7, h8, h9]

theorem parseSteps_roundtrip (steps : List ℤ) (h : ∀ s ∈ steps, 0 ≤ s) :
    parseSteps (stepsToJson steps) = some steps := by
  show (steps.map fun s : ℤ => Json.num (s : ℚ)).mapM parseStep = some steps
  exact mapM_map_id parseStep (fun s : ℤ => Json.num (s : ℚ)) steps fun s hs => by
    simp [parseStep, Rat.den_intCast, Rat.num_intCast]
    exact_mod_cast h s hs

theorem parseSection_roundtrip (sec : DrumSection) (hs : validSection sec) :
    parseSection (sectionToJson sec) = some sec := by
  obtain ⟨h1, h2, h3, h4, h5, h6, h7, h8, h9, h10, h11, h12, h13⟩ := hs
  have hpat : parsePattern (.obj (sec.pattern.map fun e =>
      (e.1, stepsToJson e.2))) = some sec.pattern := by
    unfold parsePattern
    exact mapM_map_id
      (fun e => (parseSteps e.2).map fun steps => (e.1, steps))
      (fun e => (e.1, stepsToJson e.2)) sec.pattern
      fun e he => by
        show ((parseSteps (stepsToJson e.2)).map fun steps => (e.1, steps)) = some e
        rw [parseSteps_roundtrip e.2 (h13 e he)]
        rfl
  have hb1 : (1 : ℚ) ≤ (sec.bars : ℚ) := by exact_mod_cast h1
  have hb2 : (sec.bars : ℚ) ≤ 16 := by exact_mod_cast h2
  have hc1 : (1 : ℚ) ≤ (sec.beatsPerBar : ℚ) := by exact_mod_cast h3
  have hc2 : (sec.beatsPerBar : ℚ) ≤ 32 := by exact_mod_cast h4
  have hr1 : (1 : ℚ) ≤ (sec.repeats : ℚ) := by exact_mod_cast h7
  have hr2 : (sec.repeats : ℚ) ≤ 32 := by exact_mod_cast h8
  have hsp1 : (1 : ℚ) ≤ (sec.stepsPerBeat : ℚ) := by exact_mod_cast h9
  have hsp2 : (sec.stepsPerBeat : ℚ) ≤ 8 := by exact_mod_cast h10
  simp [parseSection, sectionToJson, jsonLookup, List.lookup, parseStrField,
    parseIntField, parseNumField, hpat, Rat.den_intCast, Rat.num_intCast,
    h5, h6, h11, h12, hb1, hb2, hc1, hc2, hr1, hr2, hsp1, hsp2]

/-- C6: decoding an encoded schema-valid project returns it unchanged. -/
theorem claim_C6_roundtrip (p : DrumProject) (hp : validProject p) :
    decodeProjectFromState (some (encodeProjectToState p)) = some p := by
  obtain ⟨h1, h2, h3, h4, h5, h6, h7, h8⟩ := hp
  show parseProject (projectToJson p) = some p
  have hsecs : (p.sections.map sectionToJson).mapM parseSection =
      some p.sections :=
    mapM_map_id parseSection sectionToJson p.sections
      fun sec hsec => parseSection_roundtrip sec (h8 sec hsec)
  have htracks : (p.tracks.map trackToJson).mapM parseTrack = some p.tracks :=
    mapM_map_id parseTrack trackToJson p.tracks
      fun t htr => parseTrack_roundtrip t (h7 t htr)
  have hsecs2 : List.mapM.loop parseSection (p.sections.map sectionToJson) [] =
      some p.sections := hsecs
  have htracks2 : List.mapM.loop parseTrack (p.tracks.map trackToJson) [] =
      some p.tracks := htracks
  have hb1 : (20 : ℚ) ≤ (p.bpm : ℚ) := by exact_mod_cast h1
  have hb2 : (p.bpm : ℚ) ≤ 300 := by exact_mod_cast h2
  have hv : ((p.version : ℤ) : ℚ) = 1 := by exact_mod_cast h5
  have hlen : 1 ≤ (p.sections.map sectionToJson).length := by
    rw [List.length_map]
    exact h6
  simp [parseProject, projectToJson, jsonLookup, List.lookup, parseIntField,
    parseNumField, Rat.den_intCast, Rat.num_intCast, hsecs, htracks,
    hsecs2, htracks2, h3, h4, hb1, hb2, hv, hlen, h6]
  rw [← h5]

theorem claim_C6_roundtrip_witness :
    validProject wProject ∧
    decodeProjectFromState (some (encodeProjectToState wProject)) =
      some wProject := by
  have hv : validProject wProject := by
    refine ⟨by norm_num [wProject], by norm_num [wProject],
      by norm_num [wProject], by norm_num [wProject], rfl,
      by norm_num [wProject], ?_, ?_⟩
    · intro t ht
      rw [wProject] at ht
      simp only [List.mem_singleton] at ht
      subst ht
      refine ⟨?_, ?_, ?_, by norm_num [wTrack], by norm_num [wTrack],
        by norm_num [wTrack], by norm_num [wTrack], by norm_num [wTrack],
        by norm_num [wTrack]⟩
      · show 1 ≤ ("t1" : String).length
        decide
      · show 1 ≤ ("Kick" : String).length
        decide
      · show 1 ≤ ("/kick.wav" : String).length
        decide
    · intro sec hsec
      rw [wProject] at hsec
      simp only [List.mem_singleton] at hsec
      subst hsec
      refine ⟨by norm_num [wSection], by norm_num [wSection],
        by norm_num [wSection], by norm_num [wSection], ?_, ?_,
        by norm_num [wSection], by norm_num [wSection],
        by norm_num [wSection], by norm_num [wSection],
        by norm_num [wSection], by norm_num [wSection], ?_⟩
      · show 1 ≤ ("s1" : String).length
        decide
      · show 1 ≤ ("Verse" : String).length
        decide
      · intro e he
        rw [wSection] at he
        simp only [List.mem_singleton] at he
        subst he
        intro s hs
        simp only [List.mem_cons, List.mem_singleton] at hs
        rcases hs with h | h | h
        · omega
        · omega
        · exact absurd h (by simp)
  exact ⟨hv, claim_C6_roundtrip wProject hv⟩

/-! Note math from tuner-utils.ts. `Math.log(x)/Math.LN2` is the base-2
logarithm, embedded over the reals with `Real.logb`. -/

/-- NOTE_STRINGS from tuner-utils.ts. -/
def NOTE_STRINGS : List String :=
  ["C", "C♯", "D", "D♯", "E", "F", "F♯", "G", "G♯", "A", "A♯", "B"]

/-- getNote from tuner-utils.ts:
`Math.round(12 * (Math.log(frequency / middleA) / Math.LN2)) + 69`. -/
noncomputable def getNote (frequency middleA : ℝ) : ℤ :=
  round (12 * Real.logb 2 (frequency / middleA)) + 69

/-- The name field of frequencyToNote: `NOTE_STRINGS[value % 12]`, undefined
(`none`) when the JS remainder is negative. -/
noncomputable def frequencyToNoteName (frequency middleA : ℝ) : Option String :=
  jsIndex NOTE_STRINGS (jsRem (getNote frequency middleA) 12)

theorem jsRem_negSucc_twelve (m : ℕ) :
    jsRem (Int.negSucc m) 12 = -(((m + 1) % 12 : ℕ) : ℤ) := rfl

theorem jsRem_twelve_nonpos {v : ℤ} (h : v < 0) : jsRem v 12 ≤ 0 := by
  cases v with
  | ofNat m => exact absurd h (by simp [Int.ofNat_nonneg])
  | negSucc m =>
    rw [jsRem_negSucc_twelve]
    omega

theorem jsRem_twelve_gt (v : ℤ) : -12 < jsRem v 12 := by
  cases v with
  | ofNat m =>
    have : 0 ≤ jsRem (Int.ofNat m) 12 := Int.tmod_nonneg 12 (by simp)
    omega
  | negSucc m =>
    rw [jsRem_negSucc_twelve]
    have : (m + 1) % 12 < 12 := Nat.mod_lt _ (by norm_num)
    omega

theorem jsRem_twelve_zero_iff (v : ℤ) : jsRem v 12 = 0 ↔ 12 ∣ v :=
  ⟨fun h => Int.dvd_of_tmod_eq_zero h, fun h => Int.tmod_eq_zero_of_dvd h⟩

theorem jsIndex_isSome_iff {α : Type} (xs : List α) (i : ℤ) :
    (jsIndex xs i).isSome ↔ 0 ≤ i ∧ i.toNat < xs.length := by
  unfold jsIndex
  by_cases h0 : 0 ≤ i
  · rw [if_pos h0]
    by_cases hlt : i.toNat < xs.length
    · rw [List.getElem?_eq_getElem hlt]
      simp [h0, hlt]
    · rw [List.getElem?_eq_none (le_of_not_lt hlt)]
      simp [h0, hlt]
  · rw [if_neg h0]
    simp [h0]

/-- C10 (amended): the note-name lookup `NOTE_STRINGS[value % 12]` is
defined exactly when the JS remainder is nonnegative, which for the note
index means: nonnegative, or negative but divisible by 12 (because JS gives
`-12 % 12 = -0`, a valid index). For a negative index not divisible by 12
the remainder is negative and the name undefined. For every frequency in
[55 Hz, 1760 Hz] with middleA = 440 the index is at least 33, hence
nonnegative with a defined name. -/
theorem claim_C10_note_name (f mA : ℝ) :
    ((frequencyToNoteName f mA).isSome ↔
      (0 ≤ getNote f mA ∨ 12 ∣ getNote f mA)) ∧
    (getNote f mA < 0 → ¬(12 ∣ getNote f mA) →
      jsRem (getNote f mA) 12 < 0 ∧ frequencyToNoteName f mA = none) ∧
    (mA = 440 → 55 ≤ f → f ≤ 1760 →
      33 ≤ getNote f mA ∧ (frequencyToNoteName f mA).isSome) := by
  have hlen : NOTE_STRINGS.length = 12 := rfl
  have hiff : ∀ v : ℤ, (jsIndex NOTE_STRINGS (jsRem v 12)).isSome ↔
      (0 ≤ v ∨ 12 ∣ v) := by
    intro v
    rw [jsIndex_isSome_iff, hlen]
    constructor
    · rintro ⟨hr0, -⟩
      by_cases hv : 0 ≤ v
      · exact Or.inl hv
      · refine Or.inr ((jsRem_twelve_zero_iff v).mp ?_)
        have := jsRem_twelve_nonpos (not_le.mp hv)
        omega
    · intro hv
      have hlt : jsRem v 12 < 12 := Int.tmod_lt_of_pos v (by norm_num)
      rcases hv with hv | hv
      · have := Int.tmod_nonneg 12 hv
        constructor
        · exact this
        · omega
      · have := (jsRem_twelve_zero_iff v).mpr hv
        rw [this]
        norm_num
  refine ⟨hiff (getNote f mA), ?_, ?_⟩
  · intro hneg hndvd
    have hnp := jsRem_twelve_nonpos hneg
    constructor
    · rcases lt_or_eq_of_le hnp with h | h
      · exact h
      · exact absurd ((jsRem_twelve_zero_iff _).mp h) hndvd
    · unfold frequencyToNoteName
      have := (hiff (getNote f mA)).not.mpr (by push_neg; exact ⟨hneg, hndvd⟩)
      rw [Option.not_isSome_iff_eq_none] at this
      exact this
  · intro hmA hf1 hf2
    subst hmA
    have hfpos : (0 : ℝ) < f := lt_of_lt_of_le (by norm_num) hf1
    have hlogb : (-3 : ℝ) ≤ Real.logb 2 (f / 440) := by
      have h18 : (1 / 8 : ℝ) ≤ f / 440 := by
        rw [div_le_div_iff (by norm_num) (by norm_num)]
        linarith
      have hmono : Real.logb 2 (1 / 8) ≤ Real.logb 2 (f / 440) :=
        Real.logb_le_logb_of_le (by norm_num) (by norm_num) h18
      have h8 : Real.logb 2 (1 / 8 : ℝ) = -3 := by
        rw [show (1 / 8 : ℝ) = ((2 : ℝ) ^ (3 : ℕ))⁻¹ by norm_num,
          ← Real.rpow_natCast 2 3, ← Real.rpow_neg (by norm_num),
          Real.logb_rpow (by norm_num) (by norm_num)]
        norm_num
      linarith [h8 ▸ hmono]
    have hval : (33 : ℤ) ≤ getNote f 440 := by
      unfold getNote
      have hx : (-36 : ℝ) ≤ 12 * Real.logb 2 (f / 440) := by linarith
      have : (-36 : ℤ) ≤ round (12 * Real.logb 2 (f / 440)) := by
        rw [round_eq, Int.le_floor]
        push_cast
        linarith
      omega
    refine ⟨hval, (hiff (getNote f 440)).mpr (Or.inl (by omega))⟩

/-- C10 counterexample: at frequency 4.1 Hz with middleA 440 the note index
is −12, which is negative, yet the name lookup is defined: JS computes
`-12 % 12 = -0`, a valid index, so the name is "C". This refutes "returns a
defined note name exactly when the computed note index is nonnegative". -/
theorem claim_C10_counterexample :
    getNote (41 / 10) 440 = -12 ∧
    frequencyToNoteName (41 / 10) 440 = some "C" ∧
    getNote (41 / 10) 440 < 0 := by
  have hfrac : ((41 : ℝ) / 10) / 440 = 41 / 4400 := by norm_num
  have hlow : (2 : ℝ) ^ ((-163 : ℝ) / 24) < 41 / 4400 := by
    have h1 : (0 : ℝ) ≤ (2 : ℝ) ^ ((-163 : ℝ) / 24) :=
      (Real.rpow_pos_of_pos (by norm_num) _).le
    rw [← pow_lt_pow_iff_left₀ h1 (by norm_num : (0 : ℝ) ≤ 41 / 4400)
      (by norm_num : (24 : ℕ) ≠ 0)]
    rw [← Real.rpow_natCast ((2 : ℝ) ^ ((-163 : ℝ) / 24)) 24,
      ← Real.rpow_mul (by norm_num : (0 : ℝ) ≤ 2)]
    rw [show ((-163 : ℝ) / 24) * ((24 : ℕ) : ℝ) = -((163 : ℕ) : ℝ) by
      push_cast; ring]
    rw [Real.rpow_neg (by norm_num : (0 : ℝ) ≤ 2), Real.rpow_natCast]
    rw [div_pow, inv_eq_one_div,
      div_lt_div_iff (by positivity) (by positivity)]
    norm_num
  have hhigh : (41 : ℝ) / 4400 < 2 ^ ((-161 : ℝ) / 24) := by
    have h1 : (0 : ℝ) ≤ (2 : ℝ) ^ ((-161 : ℝ) / 24) :=
      (Real.rpow_pos_of_pos (by norm_num) _).le
    rw [← pow_lt_pow_iff_left₀ (by norm_num : (0 : ℝ) ≤ 41 / 4400) h1
      (by norm_num : (24 : ℕ) ≠ 0)]
    rw [← Real.rpow_natCast ((2 : ℝ) ^ ((-161 : ℝ) / 24)) 24,
      ← Real.rpow_mul (by norm_num : (0 : ℝ) ≤ 2)]
    rw [show ((-161 : ℝ) / 24) * ((24 : ℕ) : ℝ) = -((161 : ℕ) : ℝ) by
      push_cast; ring]
    rw [Real.rpow_neg (by norm_num : (0 : ℝ) ≤ 2), Real.rpow_natCast]
    rw [div_pow, inv_eq_one_div,
      div_lt_div_iff (by positivity) (by positivity)]
    norm_num
  have hlogb_low : (-163 : ℝ) / 24 < Real.logb 2 (41 / 4400) :=
    (Real.lt_logb_iff_rpow_lt (by norm_num) (by norm_num)).mpr hlow
  have hlogb_high : Real.logb 2 ((41 : ℝ) / 4400) < (-161 : ℝ) / 24 :=
    (Real.logb_lt_iff_lt_rpow (by norm_num) (by norm_num)).mpr hhigh
  have hround : round (12 * Real.logb 2 ((41 : ℝ) / 4400)) = -81 := by
    rw [round_eq, Int.floor_eq_iff]
    constructor
    · push_cast
      linarith
    · push_cast
      linarith
  have hnote : getNote (41 / 10) 440 = -12 := by
    unfold getNote
    rw [hfrac, hround]
    norm_num
  refine ⟨hnote, ?_, by rw [hnote]; norm_num⟩
  unfold frequencyToNoteName
  rw [hnote]
  decide

theorem claim_C10_note_name_witness :
    ((440 : ℝ) = 440 ∧ (55 : ℝ) ≤ 440 ∧ (440 : ℝ) ≤ 1760) ∧
    33 ≤ getNote 440 440 ∧ (frequencyToNoteName 440 440).isSome :=
  ⟨⟨rfl, by norm_num, by norm_num⟩,
    (claim_C10_note_name 440 440).2.2 rfl (by norm_num) (by norm_num)⟩

end MusicTools
